import Mathlib

/-!
# Verification of the Bagels multi-currency conversion and aggregation engine

Shallow embedding of the core of `rubahkampus/Bagels-Multi-Currency`:

* `src/bagels/managers/currency_rates.py` — the exchange-rate store
  (`list_rates`, `get_rate`, `set_rate`, `convert`);
* `src/bagels/managers/utils.py` — the period calculator
  (`_get_start_end_of_{year,month,week,day}`, `get_start_end_of_period`) and
  the aggregation functions `get_period_figures`,
  `get_period_totals_by_currency`;
* `src/bagels/managers/accounts.py` — `get_account_balance`;
* `src/bagels/managers/records.py` — `_get_spending_records`,
  `_calculate_daily_spending`, `get_spending`, `get_spending_trend`,
  `get_daily_balance`.

Modelling conventions:

* Python floats are modelled as exact rationals (`ℚ`); `round(x, d)` is
  modelled as round-half-to-even on the real value (`roundq`).
* `datetime` values are modelled at second granularity as `ℤ` seconds since
  the Unix epoch (microseconds play no role in any property considered);
  civil (year, month, day) triples are linearised with the standard
  proleptic-Gregorian day count `daysFromCivil`.  Python's `//` and `%` on
  `int` (floor division, non-negative remainder for positive modulus) agree
  with Lean's `Int.ediv` / `Int.emod` for the positive moduli used here.
* The SQL tables are modelled as lists of row values; a query filter is a
  `List.filter` and SQLAlchemy's `one_or_none` is `oneOrNone`, which errors
  (like the Python call raising `MultipleResultsFound`) when a filter
  matches more than one row.  Fallible Python code therefore lands in
  `Except String`.
* Python's `str.upper()` / `str.strip()` are modelled character-wise
  (`pyUpper`, `pyTrim`); currency codes are ASCII, where the Python and the
  character-wise semantics agree.  Python's `a or b` on strings (empty
  string falsy) is `orCode` / `resolveCode`.
-/

/-! ## Python string primitives -/

/-- ASCII uppercase of one character (the effect of Python `str.upper()` on
the ASCII currency codes this system works with). -/
def pyUpperChar (c : Char) : Char :=
  if c.val ≥ 97 && c.val ≤ 122 then Char.ofNat (c.toNat - 32) else c

/-- `s.upper()` for ASCII strings, defined character-wise so that it
computes by kernel reduction. -/
def pyUpper (s : String) : String := ⟨s.data.map pyUpperChar⟩

/-- `s.strip()`: drop whitespace from both ends. -/
def pyTrim (s : String) : String :=
  ⟨((s.data.dropWhile Char.isWhitespace).reverse.dropWhile Char.isWhitespace).reverse⟩

/-- Python `a or default` where `a : Optional[str]` and the empty string is
falsy: used for `record.currencyCode or default_code` and the split
currency fallback chain. -/
def orCode (a : Option String) : Option String :=
  match a with
  | none => none
  | some c => if c = "" then none else some c

/-- `getattr(x, "currencyCode", None) or default`. -/
def resolveCode (a : Option String) (dflt : String) : String :=
  match orCode a with
  | none => dflt
  | some c => c

/-! ## Rounding

Python's built-in `round(x, d)` rounds half to even.  We model it on the
exact rational value. -/

/-- Round a rational to the nearest integer, ties to the even integer
(the semantics of Python's built-in `round` on the exact value). -/
def rne (x : ℚ) : ℤ :=
  if Int.fract x < 1/2 then ⌊x⌋
  else if (1:ℚ)/2 < Int.fract x then ⌊x⌋ + 1
  else if 2 ∣ ⌊x⌋ then ⌊x⌋ else ⌊x⌋ + 1

/-- Python `round(x, d)`: round half to even at `d` decimal places. -/
def roundq (d : ℕ) (x : ℚ) : ℚ := (rne (x * 10 ^ d) : ℚ) / 10 ^ d

/-! ## The configuration consumed by the engine

`CONFIG.defaults` of `src/bagels/config.py`, restricted to the fields the
core reads. -/

structure Config where
  default_currency : String
  round_decimals : ℕ
  first_day_of_week : ℤ
deriving Repr, DecidableEq

/-! ## Rate store rows (`src/bagels/models/currency_rate.py`)

`rate` is a non-nullable float column; timestamps are seconds.  A soft
delete sets `deletedAt`. -/

structure CurrencyRate where
  fromCode : String
  toCode : String
  rate : ℚ
  isManual : Bool
  updatedAt : ℤ
  deletedAt : Option ℤ
deriving Repr, DecidableEq

/-- The `currency_rate` table. -/
abbrev RateStore := List CurrencyRate

/-- The `CurrencyRate` code validator (`validate_codes`): reject empty,
strip + uppercase, then require exactly three characters.  Runs whenever a
row is created with given codes. -/
def validateCode (value : String) : Except String String :=
  if value = "" then .error "ValueError: code cannot be empty"
  else
    let v := pyUpper (pyTrim value)
    if v.length ≠ 3 then .error "ValueError: invalid code" else .ok v

/-- `session.query(CurrencyRate).filter(fromCode == f, toCode == t,
deletedAt.is_(None))`. -/
def ratesFor (s : RateStore) (f t : String) : List CurrencyRate :=
  s.filter (fun r => r.fromCode == f && r.toCode == t && r.deletedAt.isNone)

/-- SQLAlchemy `one_or_none`: `none` on no match, the row on a unique
match, and an error (`MultipleResultsFound`) otherwise. -/
def oneOrNone {α : Type} (l : List α) : Except String (Option α) :=
  match l with
  | [] => .ok none
  | [r] => .ok (some r)
  | _ :: _ :: _ => .error "MultipleResultsFound"

/-- Mutate the first row matching `p` in place (the effect of assigning to
the attributes of the unique live row returned by `one_or_none`). -/
def updateFirst {α : Type} (p : α → Bool) (f : α → α) : List α → List α
  | [] => []
  | x :: xs => if p x then f x :: xs else x :: updateFirst p f xs

/-- Strict lexicographic order on character lists (string comparison). -/
def charsLt : List Char → List Char → Bool
  | [], [] => false
  | [], _ :: _ => true
  | _ :: _, [] => false
  | a :: as, b :: bs => if a < b then true else if b < a then false else charsLt as bs

/-- Lexicographic `ORDER BY fromCode, toCode` as a boolean relation,
compared character-wise. -/
def pairLe (a b : CurrencyRate) : Bool :=
  if a.fromCode == b.fromCode then !(charsLt b.toCode.data a.toCode.data)
  else charsLt a.fromCode.data b.fromCode.data

/-- `list_rates()`: all non-deleted rates, sorted by `(fromCode, toCode)`. -/
def list_rates (s : RateStore) : List CurrencyRate :=
  (s.filter (fun r => r.deletedAt.isNone)).mergeSort pairLe

/-- `get_rate(from_code, to_code)`: `1.0` for equal normalized codes
without a lookup; otherwise the live direct row's rate if present,
otherwise the reciprocal of the live reverse row's rate when that rate is
not `0`, otherwise `None`. -/
def get_rate (s : RateStore) (from_code to_code : String) : Except String (Option ℚ) :=
  let from_code := pyUpper from_code
  let to_code := pyUpper to_code
  if from_code = to_code then .ok (some 1)
  else do
    let direct ← oneOrNone (ratesFor s from_code to_code)
    match direct with
    | some d => return some d.rate
    | none =>
      let reverse ← oneOrNone (ratesFor s to_code from_code)
      match reverse with
      | some r => if r.rate ≠ 0 then return some (1 / r.rate) else return none
      | none => return none

/-- The direct-row block of `set_rate`: given the result of the
`one_or_none` lookup, either create the `(F, T)` row (through the code
validator) or mutate the matched live row in place. -/
def setRateDirectPhase (s : RateStore) (F T : String) (rate : ℚ)
    (is_manual : Bool) (now : ℤ) : Option CurrencyRate → Except String RateStore
  | none => do
      let f ← validateCode F
      let t ← validateCode T
      pure (s ++ [⟨f, t, rate, is_manual, now, none⟩])
  | some _ =>
      pure (updateFirst (fun r => r.fromCode == F && r.toCode == T && r.deletedAt.isNone)
        (fun r => { r with rate := rate, isManual := is_manual, updatedAt := now }) s)

/-- The reverse-row block of `set_rate` (`if from_code != to_code and rate
not in (None, 0)`; the first conjunct is already guaranteed): upsert the
live `(T, F)` row with the inverse rate `1 / rate`. -/
def setRateReversePhase (F T : String) (rate : ℚ) (is_manual : Bool) (now : ℤ)
    (s1 : RateStore) : Except String RateStore :=
  if rate ≠ 0 then do
    let reverse ← oneOrNone (ratesFor s1 T F)
    match reverse with
    | none => do
        let t ← validateCode T
        let f ← validateCode F
        pure (s1 ++ [⟨t, f, 1 / rate, is_manual, now, none⟩])
    | some _ =>
        pure (updateFirst (fun r => r.fromCode == T && r.toCode == F && r.deletedAt.isNone)
          (fun r => { r with rate := 1 / rate, isManual := is_manual, updatedAt := now }) s1)
  else
    pure s1

/-- `set_rate(from_code, to_code, rate, is_manual)` at timestamp `now`:
raise `ValueError` on equal normalized codes; upsert the live direct row;
then, when `rate` is not `0` (Python `rate not in (None, 0)`; the column is
non-nullable), upsert the live reverse row with rate `1/rate`.  Both writes
carry the same `is_manual` flag and timestamp.  Row creation runs the code
validator. -/
def set_rate (s : RateStore) (from_code to_code : String) (rate : ℚ)
    (is_manual : Bool) (now : ℤ) : Except String RateStore :=
  let F := pyUpper from_code
  let T := pyUpper to_code
  if F = T then .error "ValueError: from_code and to_code must be different."
  else do
    let direct ← oneOrNone (ratesFor s F T)
    let s1 ← setRateDirectPhase s F T rate is_manual now direct
    setRateReversePhase F T rate is_manual now s1

/-- `convert(amount, from_code, to_code)`: multiply by the resolved rate,
`None` when no rate is available. -/
def convert (s : RateStore) (amount : ℚ) (from_code to_code : String) :
    Except String (Option ℚ) := do
  let rate ← get_rate s from_code to_code
  match rate with
  | none => return none
  | some r => return some (amount * r)

/-- The conversion block repeated throughout the aggregation code:
```
if code == default_code:
    amount_default = amount
else:
    amount_default = convert_currency(amount, code, default_code)
```
yielding `none` exactly when no rate resolves. -/
def resolveAmountDefault (cfg : Config) (s : RateStore) (amount : ℚ)
    (code : String) : Except String (Option ℚ) :=
  if code = cfg.default_currency then pure (some amount)
  else convert s amount code cfg.default_currency

/-! ## Store well-formedness

The database enforces `UniqueConstraint("fromCode", "toCode")` over live
rows; under it every `one_or_none` call above succeeds. -/

/-- At most one live row per directed currency pair. -/
def WFStore (s : RateStore) : Prop :=
  List.Pairwise
    (fun a b => a.deletedAt.isNone → b.deletedAt.isNone →
      ¬(a.fromCode = b.fromCode ∧ a.toCode = b.toCode)) s

instance : DecidablePred WFStore := fun s => by
  unfold WFStore; exact List.instDecidablePairwise s

/-- The spec-level reading of `get_rate` (§4.1 of the spec): identity for
equal normalized codes, else the stored direct rate, else the reciprocal
of the stored reverse rate when nonzero, else nothing — only the two
directed lookups, never a multi-hop synthesis. -/
def getRateSpec (s : RateStore) (from_code to_code : String) : Option ℚ :=
  let F := pyUpper from_code
  let T := pyUpper to_code
  if F = T then some 1
  else
    match s.find? (fun r => r.fromCode == F && r.toCode == T && r.deletedAt.isNone) with
    | some d => some d.rate
    | none =>
      match s.find? (fun r => r.fromCode == T && r.toCode == F && r.deletedAt.isNone) with
      | some r => if r.rate ≠ 0 then some (1 / r.rate) else none
      | none => none

/-- Spec-level conversion resolver built on `getRateSpec`. -/
def convertSpec (s : RateStore) (amount : ℚ) (from_code to_code : String) : Option ℚ :=
  (getRateSpec s from_code to_code).map (fun r => amount * r)

/-! ### Helper lemmas about the store -/

theorem exceptBind_ok {α β : Type} (a : α) (f : α → Except String β) :
    (Except.ok a >>= f) = f a := rfl

theorem exceptBind_err {α β : Type} (e : String) (f : α → Except String β) :
    ((Except.error e : Except String α) >>= f) = .error e := rfl

theorem ratesFor_length_le_one {s : RateStore} (h : WFStore s) (f t : String) :
    (ratesFor s f t).length ≤ 1 := by
  induction s with
  | nil => simp [ratesFor]
  | cons x xs ih =>
    rw [WFStore, List.pairwise_cons] at h
    obtain ⟨hx, hxs⟩ := h
    show (List.filter _ (x :: xs)).length ≤ 1
    rw [List.filter_cons]
    by_cases hm : (x.fromCode == f && x.toCode == t && x.deletedAt.isNone) = true
    · rw [if_pos hm]
      have hnil : ratesFor xs f t = [] := by
        rw [ratesFor, List.filter_eq_nil_iff]
        intro y hy hc
        simp only [Bool.and_eq_true, beq_iff_eq] at hm hc
        exact hx y hy hm.2 hc.2 ⟨hm.1.1.trans hc.1.1.symm, hm.1.2.trans hc.1.2.symm⟩
      rw [ratesFor] at hnil
      rw [hnil]
      simp
    · rw [if_neg hm]
      exact ih hxs

theorem oneOrNone_of_length_le_one {α : Type} {l : List α} (h : l.length ≤ 1) :
    oneOrNone l = .ok l.head? := by
  match l with
  | [] => rfl
  | [a] => rfl
  | a :: b :: t => simp at h

theorem find?_eq_head?_filter {α : Type} (p : α → Bool) (l : List α) :
    l.find? p = (l.filter p).head? := by
  induction l with
  | nil => rfl
  | cons x xs ih =>
    rw [List.find?_cons, List.filter_cons]
    cases hx : p x
    · exact ih
    · rfl

/-- Under the uniqueness constraint, `get_rate` never raises and returns
exactly the spec-level cascade. -/
theorem get_rate_eq_spec {s : RateStore} (h : WFStore s) (f t : String) :
    get_rate s f t = .ok (getRateSpec s f t) := by
  unfold get_rate getRateSpec
  by_cases he : pyUpper f = pyUpper t
  · simp [he]
  · rw [if_neg he, if_neg he]
    rw [find?_eq_head?_filter, find?_eq_head?_filter]
    have hd := oneOrNone_of_length_le_one (ratesFor_length_le_one h (pyUpper f) (pyUpper t))
    have hr := oneOrNone_of_length_le_one (ratesFor_length_le_one h (pyUpper t) (pyUpper f))
    show (oneOrNone (ratesFor s (pyUpper f) (pyUpper t)) >>= _) = _
    rw [hd, exceptBind_ok]
    rcases hfd : (ratesFor s (pyUpper f) (pyUpper t)).head? with _ | d
    · show (oneOrNone (ratesFor s (pyUpper t) (pyUpper f)) >>= _) =
        .ok (match (ratesFor s (pyUpper f) (pyUpper t)).head? with
          | some d => some d.rate
          | none =>
            match (ratesFor s (pyUpper t) (pyUpper f)).head? with
            | some r => if r.rate ≠ 0 then some (1 / r.rate) else none
            | none => none)
      rw [hr, exceptBind_ok, hfd]
      rcases hfr : (ratesFor s (pyUpper t) (pyUpper f)).head? with _ | r
      · rfl
      · by_cases hz : r.rate = 0
        · simp [hz]
          rfl
        · simp only [ne_eq, hz, not_false_eq_true, if_true]
          rfl
    · show _ = .ok (match (ratesFor s (pyUpper f) (pyUpper t)).head? with
          | some d => some d.rate
          | none =>
            match (ratesFor s (pyUpper t) (pyUpper f)).head? with
            | some r => if r.rate ≠ 0 then some (1 / r.rate) else none
            | none => none)
      rw [hfd]
      rfl

/-- Under the uniqueness constraint, `convert` never raises and matches the
spec-level resolver. -/
theorem convert_eq_spec {s : RateStore} (h : WFStore s) (amount : ℚ) (f t : String) :
    convert s amount f t = .ok (convertSpec s amount f t) := by
  unfold convert convertSpec
  rw [get_rate_eq_spec h]
  cases getRateSpec s f t with
  | none => rfl
  | some r => rfl

/-! ## Datetimes and the period calculator (`src/bagels/managers/utils.py`)

Python `datetime` values are second-granularity points in time.  We
linearise a civil `(year, month, day, hour, minute, second)` tuple to
seconds since the Unix epoch with the standard proleptic-Gregorian day
count.  `timedelta` arithmetic is integer arithmetic on seconds;
`.replace(hour=0, minute=0, second=0, microsecond=0)` is flooring to the
day; `.weekday()` is `(day number + 3) mod 7` (1970-01-01 was a Thursday,
Monday is `0`). -/

/-- Proleptic-Gregorian day count: days from 1970-01-01 to the civil date
`(y, m, d)` (Howard Hinnant's `days_from_civil`, written with floor
division). -/
def daysFromCivil (y m d : ℤ) : ℤ :=
  let ys := if m ≤ 2 then y - 1 else y
  let era := ys / 400
  let yoe := ys - era * 400
  let mp := (m + 9) % 12
  let doy := (153 * mp + 2) / 5 + d - 1
  let doe := yoe * 365 + yoe / 4 - yoe / 100 + doy
  era * 146097 + doe - 719468

/-- A civil datetime at second granularity. -/
structure DateTime where
  year : ℤ
  month : ℤ
  day : ℤ
  hour : ℤ
  minute : ℤ
  second : ℤ
deriving Repr, DecidableEq

/-- Seconds since the Unix epoch. -/
def toSec (dt : DateTime) : ℤ :=
  daysFromCivil dt.year dt.month dt.day * 86400
    + dt.hour * 3600 + dt.minute * 60 + dt.second

/-- `_get_start_end_of_year(offset)` relative to `now`. -/
def startEndOfYear (now : DateTime) (offset : ℤ) : ℤ × ℤ :=
  let target_year := now.year + offset
  (toSec ⟨target_year, 1, 1, 0, 0, 0⟩, toSec ⟨target_year, 12, 31, 23, 59, 59⟩)

/-- `_get_start_end_of_month(offset)` relative to `now`.  Python's `//`
and `%` by the positive constant `12` coincide with `Int.ediv` /
`Int.emod` (the meaning of `/` and `%` on `ℤ` here).  The end is
`datetime(next_year, next_month, 1) - timedelta(seconds=1)`. -/
def startEndOfMonth (now : DateTime) (offset : ℤ) : ℤ × ℤ :=
  let target_month := now.month + offset
  let target_year := now.year + (target_month - 1) / 12
  let target_month := (target_month - 1) % 12 + 1
  let next_month := target_month + 1
  let next_year := target_year + (next_month - 1) / 12
  let next_month := (next_month - 1) % 12 + 1
  (toSec ⟨target_year, target_month, 1, 0, 0, 0⟩,
   toSec ⟨next_year, next_month, 1, 0, 0, 0⟩ - 1)

/-- `_get_start_end_of_week(offset)` relative to `now`: shift by whole
weeks, back up to the configured first day of the week, floor to
midnight; the end is six days later at `23:59:59`. -/
def startEndOfWeek (cfg : Config) (now : DateTime) (offset : ℤ) : ℤ × ℤ :=
  let t := toSec now + offset * 604800
  let weekday := (t / 86400 + 3) % 7
  let start_of_week := (t / 86400 - (weekday - cfg.first_day_of_week) % 7) * 86400
  (start_of_week, start_of_week + 6 * 86400 + 86399)

/-- `_get_start_end_of_day(offset)` relative to `now`. -/
def startEndOfDay (now : DateTime) (offset : ℤ) : ℤ × ℤ :=
  let t := toSec now + offset * 86400
  let day := t / 86400
  (day * 86400, day * 86400 + 86399)

/-- The `offset_type` strings accepted by `get_start_end_of_period` (every
caller passes one of these literals). -/
inductive OffsetType
  | year
  | month
  | week
  | day
deriving Repr, DecidableEq

/-- `get_start_end_of_period(offset, offset_type)`. -/
def get_start_end_of_period (cfg : Config) (now : DateTime) (offset : ℤ) :
    OffsetType → ℤ × ℤ
  | .year => startEndOfYear now offset
  | .month => startEndOfMonth now offset
  | .week => startEndOfWeek cfg now offset
  | .day => startEndOfDay now offset

/-! ## Ledger rows

`Account` and `Category` live in `bagels.models.account` /
`bagels.models.category`; those files are not part of the provided
sources, so their value shape is modelled from the spec (§3, §6): an
account carries `beginningBalance`, `name`, `hidden` and a soft-delete
stamp; the only category attribute the engine reads is its `nature`
classification. -/

/-- Modelled from the spec: the `Nature` classification of a category
(Must / Need / Want), used only as an opaque filter value. -/
inductive Nature
  | must
  | need
  | want
deriving Repr, DecidableEq

/-- Modelled from the spec: an `Account` row (`beginningBalance` seed,
display name — "Outside source" is the sentinel —, `hidden` flag, soft
delete). -/
structure Account where
  id : ℤ
  name : String
  beginningBalance : ℚ
  hidden : Bool
  deletedAt : Option ℤ
deriving Repr, DecidableEq

/-- A `Split` row (`src/bagels/models/split.py`): a portion of a record's
amount attributed to a person, with an optional per-split currency, paid
flag and optional settlement account. -/
structure Split where
  amount : ℚ
  currencyCode : Option String
  isPaid : Bool
  accountId : Option ℤ
deriving Repr, DecidableEq

/-- A `Record` row (`src/bagels/models/record.py`) together with its ORM
relationships as snapshots: its splits, and the `nature` of its category
(`none` when it has no category, in which case an inner join on
`Record.category` drops the row). -/
structure Record where
  id : ℤ
  amount : ℚ
  currencyCode : Option String
  date : ℤ
  accountId : ℤ
  categoryNature : Option Nature
  isIncome : Bool
  isTransfer : Bool
  transferToAccountId : Option ℤ
  splits : List Split
deriving Repr, DecidableEq

/-- `sum(split.amount for split in record.splits)`. -/
def splitsSum (r : Record) : ℚ := (r.splits.map Split.amount).sum

/-! ## `get_period_figures` (`src/bagels/managers/utils.py`) -/

/-- The query-filter pipeline shared verbatim by `get_period_figures` and
`get_period_totals_by_currency`: optional account filter, optional period
filter (`date >= start and date < end` for the period computed from
`offset` and `offset_type`), optional inner join on category nature. -/
def filterRecords (cfg : Config) (now : DateTime) (records : List Record)
    (accountId : Option ℤ) (offset_type : Option OffsetType) (offset : Option ℤ)
    (nature : Option Nature) : List Record :=
  let q1 := match accountId with
    | none => records
    | some a => records.filter (fun r => r.accountId == a)
  let q2 := match offset_type, offset with
    | some ot, some off =>
        let se := get_start_end_of_period cfg now off ot
        q1.filter (fun r => se.1 ≤ r.date && r.date < se.2)
    | _, _ => q1
  match nature with
  | none => q2
  | some n => q2.filter (fun r => r.categoryNature == some n)

/-- One iteration of the summation loop of `get_period_figures`: skip
transfers and non-matching records when an income/expense filter is
given; compute the record's self-portion in its own currency; resolve the
currency and convert to the default currency, skipping the record when no
rate resolves; add income, subtract expense, and ignore transfers in the
final sum. -/
def figStep (cfg : Config) (s : RateStore) (isIncome : Option Bool)
    (total : ℚ) (r : Record) : Except String ℚ :=
  if isIncome.isSome && r.isTransfer then pure total
  else if (match isIncome with | some b => r.isIncome != b | none => false) then pure total
  else do
    let amount_default ← resolveAmountDefault cfg s (r.amount - splitsSum r)
      (resolveCode r.currencyCode cfg.default_currency)
    match amount_default with
    | none => pure total
    | some a =>
        pure (if r.isTransfer then total
          else if r.isIncome then total + a else total - a)

/-- `get_period_figures(accountId, offset_type, offset, isIncome,
nature)` over the record table `records`, at wall-clock `now`: the
absolute value of the rounded signed net total. -/
def get_period_figures (cfg : Config) (s : RateStore) (now : DateTime)
    (records : List Record) (accountId : Option ℤ) (offset_type : Option OffsetType)
    (offset : Option ℤ) (isIncome : Option Bool) (nature : Option Nature) :
    Except String ℚ := do
  let q := filterRecords cfg now records accountId offset_type offset nature
  let total ← q.foldlM (figStep cfg s isIncome) 0
  pure |roundq cfg.round_decimals total|

/-! ## `get_period_totals_by_currency` (`src/bagels/managers/utils.py`) -/

/-- One `defaultdict` accumulation: find the bucket for currency `c`
(creating `{income: 0, expense: 0}` on first touch, preserving insertion
order) and add `amt` to its income (when `inc`) or expense side. -/
def bumpTotals (m : List (String × ℚ × ℚ)) (c : String) (inc : Bool) (amt : ℚ) :
    List (String × ℚ × ℚ) :=
  match m with
  | [] => [(c, if inc then (amt, 0) else (0, amt))]
  | (c', i, e) :: rest =>
      if c' = c then (c', if inc then (i + amt, e) else (i, e + amt)) :: rest
      else (c', i, e) :: bumpTotals rest c inc amt

/-- The accumulation loop of `get_period_totals_by_currency`: skip records
failing the income/expense filter, skip transfers, then bucket the
self-portion by the record's resolved own currency with no conversion. -/
def totalsStep (cfg : Config) (isIncome : Option Bool)
    (m : List (String × ℚ × ℚ)) (r : Record) : List (String × ℚ × ℚ) :=
  if (match isIncome with | some b => r.isIncome != b | none => false) then m
  else if r.isTransfer then m
  else
    bumpTotals m (resolveCode r.currencyCode cfg.default_currency) r.isIncome
      (r.amount - splitsSum r)

/-- The rounding pass of `get_period_totals_by_currency` on one bucket:
round income and expense, compute `net = round(income - expense)`, and
drop the bucket when rounded income and expense are both exactly zero. -/
def finalizeBucket (d : ℕ) (b : String × ℚ × ℚ) : Option (String × ℚ × ℚ × ℚ) :=
  let income := roundq d b.2.1
  let expense := roundq d b.2.2
  let net := roundq d (income - expense)
  if income = 0 ∧ expense = 0 then none else some (b.1, income, expense, net)

/-- `get_period_totals_by_currency(...)`: per-currency `(income, expense,
net)` rows (in bucket insertion order), rounding each bucket, dropping
buckets whose rounded income and expense are both zero, with
`net = round(income - expense)`. -/
def get_period_totals_by_currency (cfg : Config) (now : DateTime)
    (records : List Record) (accountId : Option ℤ) (offset_type : Option OffsetType)
    (offset : Option ℤ) (isIncome : Option Bool) (nature : Option Nature) :
    List (String × ℚ × ℚ × ℚ) :=
  let q := filterRecords cfg now records accountId offset_type offset nature
  let totals := q.foldl (totalsStep cfg isIncome) []
  totals.filterMap (finalizeBucket cfg.round_decimals)

/-! ## `get_account_balance` (`src/bagels/managers/accounts.py`) -/

/-- Body of the first loop: convert `record.amount` to the default
currency (skip on no rate); transfers out always subtract, income adds,
expense subtracts. -/
def ownRecordStep (cfg : Config) (s : RateStore) (balance : ℚ) (r : Record) :
    Except String ℚ := do
  let amount_default ← resolveAmountDefault cfg s r.amount
    (resolveCode r.currencyCode cfg.default_currency)
  match amount_default with
  | none => pure balance
  | some a =>
      pure (if r.isTransfer then balance - a
        else if r.isIncome then balance + a else balance - a)

/-- Body of the second loop (records transferring into this account):
convert and add (skip on no rate). -/
def transferInStep (cfg : Config) (s : RateStore) (balance : ℚ) (r : Record) :
    Except String ℚ := do
  let amount_default ← resolveAmountDefault cfg s r.amount
    (resolveCode r.currencyCode cfg.default_currency)
  match amount_default with
  | none => pure balance
  | some a => pure (balance + a)

/-- Body of the third loop over `(split, parent record)` rows settled to
this account: unpaid splits are skipped; the currency falls back from the
split to its record to the default; paid splits against an income record
subtract, against an expense record add. -/
def splitStep (cfg : Config) (s : RateStore) (balance : ℚ)
    (sp : Split × Record) : Except String ℚ :=
  if !sp.1.isPaid then pure balance
  else do
    let amount_default ← resolveAmountDefault cfg s sp.1.amount
      (resolveCode sp.1.currencyCode (resolveCode sp.2.currencyCode cfg.default_currency))
    match amount_default with
    | none => pure balance
    | some a => pure (if sp.2.isIncome then balance - a else balance + a)

/-- The `split` table joined with its parent record (the ORM relationship
`Split.record`): every split belongs to exactly one record. -/
def splitRows (records : List Record) : List (Split × Record) :=
  records.flatMap (fun r => r.splits.map (fun sp => (sp, r)))

/-- `get_account_balance(accountId)`: `.first().beginningBalance` of the
account (an `AttributeError` on a missing account), plus the three
converted sums, rounded at the end. -/
def get_account_balance (cfg : Config) (s : RateStore) (accounts : List Account)
    (records : List Record) (accountId : ℤ) : Except String ℚ := do
  let balance0 ←
    match accounts.find? (fun a => a.id == accountId) with
    | none => Except.error "AttributeError: NoneType has no attribute beginningBalance"
    | some a => pure a.beginningBalance
  let b1 ← (records.filter (fun r => r.accountId == accountId)).foldlM
    (ownRecordStep cfg s) balance0
  let b2 ← (records.filter (fun r => r.transferToAccountId == some accountId && r.isTransfer)).foldlM
    (transferInStep cfg s) b1
  let b3 ← ((splitRows records).filter (fun sp => sp.1.accountId == some accountId)).foldlM
    (splitStep cfg s) b2
  pure (roundq cfg.round_decimals b3)

/-! ## Daily series (`src/bagels/managers/records.py`) -/

/-- `_get_spending_records(session, start_date, end_date)`: non-income,
non-transfer records with `start_date <= date < end_date`. -/
def spendingRecords (records : List Record) (start_date end_date : ℤ) : List Record :=
  records.filter (fun r =>
    r.isIncome == false && start_date ≤ r.date && r.date < end_date && r.isTransfer == false)

/-- The `daily_spending` dictionary of `_calculate_daily_spending`,
keyed by day number, default `0`; unconvertible records are skipped. -/
def buildDailySpending (cfg : Config) (s : RateStore) (records : List Record) :
    Except String (ℤ → ℚ) :=
  records.foldlM (fun m r => do
    let amount_default ← resolveAmountDefault cfg s (r.amount - splitsSum r)
      (resolveCode r.currencyCode cfg.default_currency)
    match amount_default with
    | none => pure m
    | some a => pure (fun k => if k = r.date / 86400 then m (r.date / 86400) + a else m k))
    (fun _ => 0)

/-- The day loop of `_calculate_daily_spending`: walk each day of
`[current, end_day]`, emitting (only for days at or before `today`) the
day's amount, or a running total in cumulative mode. -/
def spendingLoop (m : ℤ → ℚ) (today : ℤ) (cumulative : Bool) (running_total : ℚ)
    (current end_day : ℤ) : List ℚ :=
  if current ≤ end_day then
    if current ≤ today then
      let daily_amount := m current
      if cumulative then
        (running_total + daily_amount)
          :: spendingLoop m today cumulative (running_total + daily_amount) (current + 1) end_day
      else daily_amount :: spendingLoop m today cumulative running_total (current + 1) end_day
    else spendingLoop m today cumulative running_total (current + 1) end_day
  else []
termination_by (end_day + 1 - current).toNat
decreasing_by all_goals omega

/-- `_calculate_daily_spending(records, start_date, end_date,
cumulative)` at wall-clock date `today` (timestamps in seconds; `.date()`
is flooring to the day). -/
def calculate_daily_spending (cfg : Config) (s : RateStore) (records : List Record)
    (start_date end_date today : ℤ) (cumulative : Bool) : Except String (List ℚ) := do
  let m ← buildDailySpending cfg s records
  pure (spendingLoop m (today / 86400) cumulative 0 (start_date / 86400) (end_date / 86400))

/-- `get_spending(start_date, end_date)`. -/
def get_spending (cfg : Config) (s : RateStore) (records : List Record)
    (start_date end_date today : ℤ) : Except String (List ℚ) :=
  calculate_daily_spending cfg s (spendingRecords records start_date end_date)
    start_date end_date today false

/-- `get_spending_trend(start_date, end_date)`. -/
def get_spending_trend (cfg : Config) (s : RateStore) (records : List Record)
    (start_date end_date today : ℤ) : Except String (List ℚ) :=
  calculate_daily_spending cfg s (spendingRecords records start_date end_date)
    start_date end_date today true

/-- `adjust_balance(r)` of `get_daily_balance`: a transfer to the
"Outside source" account subtracts its amount, a transfer from it adds,
other transfers are neutral; income adds the self-portion, expense
subtracts it; the effect is converted to the default currency and an
unconvertible effect counts as `0`. -/
def adjust_balance (cfg : Config) (s : RateStore) (accounts : List Account)
    (r : Record) : Except String ℚ := do
  let transferToAccount := r.transferToAccountId.bind
    (fun i => accounts.find? (fun a => a.id == i))
  let account := accounts.find? (fun a => a.id == r.accountId)
  let base_effect :=
    if r.isTransfer then
      match transferToAccount with
      | some a =>
          if a.name = "Outside source" then -r.amount
          else match account with
            | some b => if b.name = "Outside source" then r.amount else 0
            | none => 0
      | none =>
          match account with
          | some b => if b.name = "Outside source" then r.amount else 0
          | none => 0
    else if r.isIncome then r.amount - splitsSum r
    else -r.amount + splitsSum r
  let code := resolveCode r.currencyCode cfg.default_currency
  if code = cfg.default_currency then pure base_effect
  else do
    let converted ← convert s base_effect code cfg.default_currency
    pure (converted.getD 0)

/-- The day loop of `get_daily_balance`: step one day (86400 seconds) at
a time through `[current, end_date]`, breaking as soon as `current`
passes wall-clock `today`, adding each day's net effect and emitting the
running balance. -/
def balanceLoop (cfg : Config) (s : RateStore) (accounts : List Account)
    (records : List Record) (liveIds : List ℤ) (today end_date : ℤ)
    (total_balance : ℚ) (current : ℤ) : Except String (List ℚ) :=
  if current ≤ end_date then
    if current > today then pure []
    else do
      let day_records := records.filter (fun r =>
        r.date / 86400 == current / 86400 && liveIds.contains r.accountId)
      let day_effect ← day_records.foldlM
        (fun acc r => do
          let v ← adjust_balance cfg s accounts r
          pure (acc + v)) 0
      let total := total_balance + day_effect
      let rest ← balanceLoop cfg s accounts records liveIds today end_date total (current + 86400)
      pure (total :: rest)
  else pure []
termination_by (end_date + 1 - current).toNat
decreasing_by all_goals omega

/-- `get_daily_balance(start_date, end_date)` at wall-clock `today`: sum
the beginning balances of non-deleted accounts, apply every earlier
record's adjusted effect, then walk the days. -/
def get_daily_balance (cfg : Config) (s : RateStore) (accounts : List Account)
    (records : List Record) (start_date end_date today : ℤ) :
    Except String (List ℚ) := do
  let live := accounts.filter (fun a => a.deletedAt.isNone)
  let liveIds := live.map Account.id
  let total0 : ℚ := (live.map Account.beginningBalance).sum
  let old_records := records.filter (fun r =>
    r.date < start_date && liveIds.contains r.accountId)
  let total1 ← old_records.foldlM
    (fun acc r => do
      let v ← adjust_balance cfg s accounts r
      pure (acc + v)) total0
  balanceLoop cfg s accounts records liveIds today end_date total1 start_date

/-! ## Rounding lemmas

Python's `round` is symmetric under negation (ties go to the even
integer, and negation preserves evenness of the bracketing pair), so
taking the absolute value before or after rounding is the same. -/

theorem rne_intCast (k : ℤ) : rne (k : ℚ) = k := by
  unfold rne
  rw [Int.fract_intCast, Int.floor_intCast]
  norm_num

theorem rne_neg (x : ℚ) : rne (-x) = -rne x := by
  unfold rne
  by_cases h0 : Int.fract x = 0
  · have hx : x = (⌊x⌋ : ℚ) := by
      have := Int.fract.eq_1 x
      rw [h0] at this
      linarith
    rw [hx, ← Int.cast_neg, Int.fract_intCast, Int.floor_intCast, Int.floor_intCast]
    norm_num
  · have hfr := Int.fract_neg h0
    have hfloor : ⌊-x⌋ = -⌊x⌋ - 1 := by
      have h1 := Int.fract.eq_1 x
      have h2 := Int.fract.eq_1 (-x)
      rw [hfr] at h2
      have : ((⌊-x⌋ : ℚ)) = ((-⌊x⌋ - 1 : ℤ) : ℚ) := by push_cast; linarith
      exact_mod_cast this
    have hlt : 0 < Int.fract x := lt_of_le_of_ne (Int.fract_nonneg x) (Ne.symm h0)
    have hlt1 : Int.fract x < 1 := Int.fract_lt_one x
    rw [hfr, hfloor]
    split_ifs <;> first | omega | linarith

theorem rne_nonneg {x : ℚ} (h : 0 ≤ x) : 0 ≤ rne x := by
  have hf : 0 ≤ ⌊x⌋ := Int.floor_nonneg.mpr h
  unfold rne
  split_ifs <;> omega

theorem roundq_neg (d : ℕ) (x : ℚ) : roundq d (-x) = -roundq d x := by
  unfold roundq
  rw [neg_mul, rne_neg]
  push_cast
  ring

theorem roundq_nonneg (d : ℕ) {x : ℚ} (h : 0 ≤ x) : 0 ≤ roundq d x := by
  unfold roundq
  have h1 : (0:ℚ) ≤ (rne (x * 10 ^ d) : ℚ) := by
    exact_mod_cast rne_nonneg (by positivity)
  positivity

/-- Rounding commutes with the absolute value (Python `abs(round(x, d))`
equals `round(abs(x), d)`). -/
theorem abs_roundq (d : ℕ) (x : ℚ) : |roundq d x| = roundq d |x| := by
  rcases le_or_lt 0 x with h | h
  · rw [abs_of_nonneg h, abs_of_nonneg (roundq_nonneg d h)]
  · have hnn : 0 ≤ roundq d (-x) := roundq_nonneg d (by linarith : (0:ℚ) ≤ -x)
    rw [roundq_neg] at hnn
    rw [abs_of_neg h, abs_of_nonpos (by linarith), ← roundq_neg]

/-- Rounding is the identity on exact multiples of `10 ^ (-d)`. -/
theorem roundq_intMul (d : ℕ) (k : ℤ) : roundq d ((k : ℚ) / 10 ^ d) = (k : ℚ) / 10 ^ d := by
  unfold roundq
  rw [div_mul_cancel₀, rne_intCast]
  positivity

/-- The difference of two rounded values is already rounded (used for the
`net` field of the per-currency totals). -/
theorem roundq_roundq_sub (d : ℕ) (a b : ℚ) :
    roundq d (roundq d a - roundq d b) = roundq d a - roundq d b := by
  have : roundq d a - roundq d b = ((rne (a * 10 ^ d) - rne (b * 10 ^ d) : ℤ) : ℚ) / 10 ^ d := by
    unfold roundq
    push_cast
    ring
  rw [this, roundq_intMul]


/-! ## The state after `set_rate` -/

theorem oneOrNone_ok_none {α : Type} {l : List α} (h : oneOrNone l = .ok none) :
    l = [] := by
  match l with
  | [] => rfl
  | [a] => simp [oneOrNone] at h
  | a :: b :: t => simp [oneOrNone] at h

theorem oneOrNone_ok_some {α : Type} {l : List α} {a : α}
    (h : oneOrNone l = .ok (some a)) : l = [a] := by
  match l with
  | [] => simp [oneOrNone] at h
  | [b] => simp only [oneOrNone, Except.ok.injEq, Option.some.injEq] at h; rw [h]
  | b :: c :: t => simp [oneOrNone] at h

theorem filter_updateFirst_of_excluded {α : Type} (p q : α → Bool) (f : α → α)
    (l : List α) (hq : ∀ x, p x = true → q x = false ∧ q (f x) = false) :
    (updateFirst p f l).filter q = l.filter q := by
  induction l with
  | nil => rfl
  | cons x xs ih =>
    by_cases hp : p x = true
    · rw [updateFirst, if_pos hp, List.filter_cons, List.filter_cons, (hq x hp).1, (hq x hp).2]
      simp
    · rw [updateFirst, if_neg hp, List.filter_cons, List.filter_cons, ih]

theorem filter_updateFirst_of_single {α : Type} {p : α → Bool} {f : α → α}
    {l : List α} {d : α} (hf : ∀ x, p x = true → p (f x) = true)
    (h : l.filter p = [d]) : (updateFirst p f l).filter p = [f d] := by
  induction l with
  | nil => simp at h
  | cons x xs ih =>
    by_cases hp : p x = true
    · rw [List.filter_cons, if_pos hp] at h
      obtain ⟨hxd, hnil⟩ := List.cons_eq_cons.mp h
      rw [updateFirst, if_pos hp, List.filter_cons, if_pos (hf x hp), hxd, hnil]
    · rw [List.filter_cons, if_neg hp] at h
      rw [updateFirst, if_neg hp, List.filter_cons, if_neg hp]
      exact ih h

theorem ratesFor_append_single (s : RateStore) (x : CurrencyRate) (f t : String) :
    ratesFor (s ++ [x]) f t = ratesFor s f t ++
      (if x.fromCode == f && x.toCode == t && x.deletedAt.isNone then [x] else []) := by
  rw [ratesFor, ratesFor, List.filter_append]
  congr 1
  rw [List.filter_cons]
  by_cases hx : (x.fromCode == f && x.toCode == t && x.deletedAt.isNone) = true
  · rw [if_pos hx, if_pos hx]; rfl
  · rw [if_neg hx, if_neg hx]; rfl

/-- A string is already normalized: stripping and uppercasing leave it
unchanged and it has three characters (the shape of every stored currency
code). -/
def isNormCode (c : String) : Prop :=
  pyTrim c = c ∧ pyUpper c = c ∧ c.length = 3

instance (c : String) : Decidable (isNormCode c) := by
  unfold isNormCode; infer_instance

theorem validateCode_of_norm {c : String} (h : isNormCode c) :
    validateCode c = .ok c := by
  obtain ⟨h1, h2, h3⟩ := h
  unfold validateCode
  rw [if_neg (by rintro rfl; simp [String.length] at h3), h1, h2, if_neg (by rw [h3]; simp)]

theorem setRateDirectPhase_none_eq {F T : String} (s : RateStore) (rate : ℚ)
    (m : Bool) (now : ℤ) (hfv : validateCode F = .ok F) (htv : validateCode T = .ok T) :
    setRateDirectPhase s F T rate m now none = .ok (s ++ [⟨F, T, rate, m, now, none⟩]) := by
  unfold setRateDirectPhase
  rw [hfv, exceptBind_ok, htv, exceptBind_ok]
  rfl

theorem setRateDirectPhase_some_eq {F T : String} (s : RateStore) (rate : ℚ)
    (m : Bool) (now : ℤ) (d : CurrencyRate) :
    setRateDirectPhase s F T rate m now (some d) =
      .ok (updateFirst (fun r => r.fromCode == F && r.toCode == T && r.deletedAt.isNone)
        (fun r => { r with rate := rate, isManual := m, updatedAt := now }) s) := rfl

theorem setRateReversePhase_of_err {F T : String} {s1 : RateStore} {rate : ℚ}
    {m : Bool} {now : ℤ} {e : String} (hr : rate ≠ 0)
    (hrv : oneOrNone (ratesFor s1 T F) = .error e) :
    setRateReversePhase F T rate m now s1 = .error e := by
  unfold setRateReversePhase
  rw [if_pos hr, hrv, exceptBind_err]

theorem setRateReversePhase_ok_none {F T : String} {s1 : RateStore} {rate : ℚ}
    {m : Bool} {now : ℤ} (hr : rate ≠ 0)
    (hrv : oneOrNone (ratesFor s1 T F) = .ok none)
    (htv : validateCode T = .ok T) (hfv : validateCode F = .ok F) :
    setRateReversePhase F T rate m now s1 =
      .ok (s1 ++ [⟨T, F, 1 / rate, m, now, none⟩]) := by
  unfold setRateReversePhase
  rw [if_pos hr, hrv, exceptBind_ok]
  rw [show ((match (none : Option CurrencyRate) with
    | none => do
        let t ← validateCode T
        let f ← validateCode F
        pure (s1 ++ [⟨t, f, 1 / rate, m, now, none⟩])
    | some _ =>
        pure (updateFirst (fun r => r.fromCode == T && r.toCode == F && r.deletedAt.isNone)
          (fun r => { r with rate := 1 / rate, isManual := m, updatedAt := now }) s1)
    : Except String RateStore)) = do
        let t ← validateCode T
        let f ← validateCode F
        pure (s1 ++ [⟨t, f, 1 / rate, m, now, none⟩]) from rfl]
  rw [htv, exceptBind_ok, hfv, exceptBind_ok]
  rfl

theorem setRateReversePhase_ok_some {F T : String} {s1 : RateStore} {rate : ℚ}
    {m : Bool} {now : ℤ} {r : CurrencyRate} (hr : rate ≠ 0)
    (hrv : oneOrNone (ratesFor s1 T F) = .ok (some r)) :
    setRateReversePhase F T rate m now s1 =
      .ok (updateFirst (fun x => x.fromCode == T && x.toCode == F && x.deletedAt.isNone)
        (fun x => { x with rate := 1 / rate, isManual := m, updatedAt := now }) s1) := by
  unfold setRateReversePhase
  rw [if_pos hr, hrv, exceptBind_ok]
  rfl

/-- After a successful `set_rate` on distinct normalized codes with a
nonzero rate, the live direct and reverse rows are exactly the freshly
stamped reciprocal pair. -/
theorem set_rate_ratesFor {s s' : RateStore} {fc tc : String} {rate : ℚ}
    {manual : Bool} {now : ℤ}
    (hf : isNormCode fc) (ht : isNormCode tc) (hne : fc ≠ tc) (hr : rate ≠ 0)
    (hset : set_rate s fc tc rate manual now = .ok s') :
    ratesFor s' fc tc = [⟨fc, tc, rate, manual, now, none⟩] ∧
    ratesFor s' tc fc = [⟨tc, fc, 1 / rate, manual, now, none⟩] := by
  have hfv := validateCode_of_norm hf
  have htv := validateCode_of_norm ht
  unfold set_rate at hset
  rw [hf.2.1, ht.2.1, if_neg hne] at hset
  cases hd : oneOrNone (ratesFor s fc tc) with
  | error e =>
    rw [hd, exceptBind_err] at hset
    exact absurd hset (by simp)
  | ok d0 =>
    rw [hd, exceptBind_ok] at hset
    obtain ⟨s1, hphase1, hs1d, hs1r⟩ :
        ∃ s1, setRateDirectPhase s fc tc rate manual now d0 = .ok s1 ∧
          ratesFor s1 fc tc = [⟨fc, tc, rate, manual, now, none⟩] ∧
          ratesFor s1 tc fc = ratesFor s tc fc := by
      cases d0 with
      | none =>
        refine ⟨s ++ [⟨fc, tc, rate, manual, now, none⟩],
          setRateDirectPhase_none_eq s rate manual now hfv htv, ?_, ?_⟩
        · rw [ratesFor_append_single, oneOrNone_ok_none hd]
          simp
        · rw [ratesFor_append_single]
          have : ((⟨fc, tc, rate, manual, now, none⟩ : CurrencyRate).fromCode == tc
              && (⟨fc, tc, rate, manual, now, none⟩ : CurrencyRate).toCode == fc
              && (⟨fc, tc, rate, manual, now, none⟩ : CurrencyRate).deletedAt.isNone) = false := by
            simp [hne]
          rw [this]
          simp
      | some d =>
        have hone := oneOrNone_ok_some hd
        refine ⟨_, setRateDirectPhase_some_eq s rate manual now d, ?_, ?_⟩
        · rw [ratesFor, filter_updateFirst_of_single (fun x hx => ?_) hone]
          · have hdp : d.fromCode = fc ∧ d.toCode = tc ∧ d.deletedAt = none := by
              have hmem : d ∈ ratesFor s fc tc := by rw [hone]; exact List.mem_singleton.mpr rfl
              have := (List.mem_filter.mp hmem).2
              simp only [Bool.and_eq_true, beq_iff_eq, Option.isNone_iff_eq_none] at this
              exact ⟨this.1.1, this.1.2, this.2⟩
            obtain ⟨h1, h2, h3⟩ := hdp
            cases d
            simp_all
          · simp only [Bool.and_eq_true, beq_iff_eq] at hx ⊢
            exact ⟨⟨hx.1.1, hx.1.2⟩, hx.2⟩
        · rw [ratesFor, ratesFor,
            filter_updateFirst_of_excluded _ _ _ _ (fun x hx => ?_)]
          simp only [Bool.and_eq_true, beq_iff_eq] at hx
          constructor
          · simp only [Bool.and_eq_false_iff, beq_eq_false_iff_ne]
            left; left
            rw [hx.1.1]
            exact hne
          · simp only [Bool.and_eq_false_iff, beq_eq_false_iff_ne]
            left; left
            rw [hx.1.1]
            exact hne
    rw [hphase1, exceptBind_ok] at hset
    cases hrv : oneOrNone (ratesFor s1 tc fc) with
    | error e =>
      rw [setRateReversePhase_of_err hr hrv] at hset
      exact absurd hset (by simp)
    | ok r0 =>
      cases r0 with
      | none =>
        rw [setRateReversePhase_ok_none hr hrv htv hfv] at hset
        have hs' := (Except.ok.inj hset).symm
        subst hs'
        constructor
        · rw [ratesFor_append_single, hs1d]
          have : ((⟨tc, fc, 1 / rate, manual, now, none⟩ : CurrencyRate).fromCode == fc
              && (⟨tc, fc, 1 / rate, manual, now, none⟩ : CurrencyRate).toCode == tc
              && (⟨tc, fc, 1 / rate, manual, now, none⟩ : CurrencyRate).deletedAt.isNone) = false := by
            simp [Ne.symm hne]
          rw [this]
          simp
        · rw [ratesFor_append_single, oneOrNone_ok_none hrv]
          simp
      | some r =>
        rw [setRateReversePhase_ok_some hr hrv] at hset
        have hs' := (Except.ok.inj hset).symm
        subst hs'
        have hone := oneOrNone_ok_some hrv
        constructor
        · have hs1df : List.filter
              (fun x => x.fromCode == fc && x.toCode == tc && x.deletedAt.isNone) s1
              = [⟨fc, tc, rate, manual, now, none⟩] := hs1d
          refine (filter_updateFirst_of_excluded
            (fun x => x.fromCode == tc && x.toCode == fc && x.deletedAt.isNone)
            (fun x => x.fromCode == fc && x.toCode == tc && x.deletedAt.isNone)
            (fun x => { x with rate := 1 / rate, isManual := manual, updatedAt := now }) s1
            (fun x hx => ?_)).trans hs1df
          simp only [Bool.and_eq_true, beq_iff_eq] at hx
          constructor
          · simp only [Bool.and_eq_false_iff, beq_eq_false_iff_ne]
            left; left
            rw [hx.1.1]
            exact Ne.symm hne
          · simp only [Bool.and_eq_false_iff, beq_eq_false_iff_ne]
            left; left
            rw [hx.1.1]
            exact Ne.symm hne
        · rw [ratesFor, filter_updateFirst_of_single (fun x hx => ?_) hone]
          · have hrp : r.fromCode = tc ∧ r.toCode = fc ∧ r.deletedAt = none := by
              have hmem : r ∈ ratesFor s1 tc fc := by rw [hone]; exact List.mem_singleton.mpr rfl
              have := (List.mem_filter.mp hmem).2
              simp only [Bool.and_eq_true, beq_iff_eq, Option.isNone_iff_eq_none] at this
              exact ⟨this.1.1, this.1.2, this.2⟩
            obtain ⟨h1, h2, h3⟩ := hrp
            cases r
            simp_all
          · simp only [Bool.and_eq_true, beq_iff_eq] at hx ⊢
            exact ⟨⟨hx.1.1, hx.1.2⟩, hx.2⟩

/-! ## Claims about the rate store -/

/-- C1: the claim says `setRate` with a non-positive rate (e.g.
`setRate("USD","EUR",0)`) fails with `InvalidRateError` before any
mutation, leaving the store unchanged as observable via `listRates`.  The
code does not validate the rate: on `set_rate("USD","EUR",0)` it commits
the direct row with rate `0` (skipping only the inverse write), returns
without error, and `list_rates` observes the mutation — contradicting the
claim, the spec's Scenario E, and `set_rate`'s own docstring invariant
that both directions are always kept as exact inverses. -/
theorem setRate_zero_not_rejected :
    set_rate [] "USD" "EUR" 0 true 0 =
      .ok [⟨"USD", "EUR", 0, true, 0, none⟩] ∧
    list_rates [⟨"USD", "EUR", 0, true, 0, none⟩] ≠ list_rates [] := by
  constructor
  · unfold set_rate
    rw [if_neg (by decide)]
    rw [show oneOrNone (ratesFor [] (pyUpper "USD") (pyUpper "EUR")) = .ok none from rfl,
      exceptBind_ok]
    rw [setRateDirectPhase_none_eq _ _ _ _ (by rfl) (by rfl), exceptBind_ok]
    unfold setRateReversePhase
    rw [if_neg (by norm_num)]
    rfl
  · rw [list_rates, list_rates]
    simp [List.mergeSort_nil, List.mergeSort_singleton]

/-- C2: for distinct normalized codes and a rate `> 0`, immediately after
a successful `set_rate(from, to, rate)` the store satisfies
`getRate(from, to) = rate` and `getRate(to, from) = 1/rate`, and the two
live rows are the reciprocal pair carrying the same `isManual` flag and
the same timestamp. -/
theorem setRate_getRate_bidirectional {s s' : RateStore} {fc tc : String}
    {rate : ℚ} {manual : Bool} {now : ℤ}
    (hf : isNormCode fc) (ht : isNormCode tc) (hne : fc ≠ tc) (hr : 0 < rate)
    (hset : set_rate s fc tc rate manual now = .ok s') :
    get_rate s' fc tc = .ok (some rate) ∧
    get_rate s' tc fc = .ok (some (1 / rate)) ∧
    ratesFor s' fc tc = [⟨fc, tc, rate, manual, now, none⟩] ∧
    ratesFor s' tc fc = [⟨tc, fc, 1 / rate, manual, now, none⟩] := by
  obtain ⟨hd, hrv⟩ := set_rate_ratesFor hf ht hne (ne_of_gt hr) hset
  refine ⟨?_, ?_, hd, hrv⟩
  · unfold get_rate
    rw [hf.2.1, ht.2.1, if_neg hne, hd]
    rfl
  · unfold get_rate
    rw [ht.2.1, hf.2.1, if_neg (Ne.symm hne), hrv]
    rfl

/-- Witness for C2 at a concrete input: `set_rate` on the empty store with
`("USD", "EUR", 2)` yields a store on which both directed lookups return
the stored rate and its reciprocal. -/
theorem setRate_getRate_bidirectional_witness :
    get_rate [⟨"USD", "EUR", 2, true, 5, none⟩, ⟨"EUR", "USD", 1 / 2, true, 5, none⟩]
        "USD" "EUR" = .ok (some 2) ∧
    get_rate [⟨"USD", "EUR", 2, true, 5, none⟩, ⟨"EUR", "USD", 1 / 2, true, 5, none⟩]
        "EUR" "USD" = .ok (some (1 / 2)) := by
  have hset : set_rate [] "USD" "EUR" 2 true 5 =
      .ok [⟨"USD", "EUR", 2, true, 5, none⟩, ⟨"EUR", "USD", 1 / 2, true, 5, none⟩] := by
    unfold set_rate
    rw [if_neg (by decide)]
    rw [show oneOrNone (ratesFor [] (pyUpper "USD") (pyUpper "EUR")) = .ok none from rfl,
      exceptBind_ok]
    rw [setRateDirectPhase_none_eq _ _ _ _ (by rfl) (by rfl), exceptBind_ok]
    rw [setRateReversePhase_ok_none (by norm_num) (by rfl) (by rfl) (by rfl)]
    rfl
  have h := @setRate_getRate_bidirectional []
    [⟨"USD", "EUR", 2, true, 5, none⟩, ⟨"EUR", "USD", 1 / 2, true, 5, none⟩]
    "USD" "EUR" 2 true 5 (by decide) (by decide) (by decide) (by norm_num) hset
  exact ⟨h.1, h.2.1⟩

/-- C3: `get_rate` returns `1.0` for equal normalized codes independently
of the store contents (no lookup), otherwise the stored direct rate if a
live direct row exists, otherwise the reciprocal of the live reverse
row's rate provided it is nonzero, otherwise `None` — `getRateSpec`
performs exactly these two directed lookups, never a multi-hop
synthesis. -/
theorem getRate_cascade_spec {s : RateStore} (hwf : WFStore s) (f t : String) :
    get_rate s f t = .ok (getRateSpec s f t) ∧
    (pyUpper f = pyUpper t → ∀ s2 : RateStore, get_rate s2 f t = .ok (some 1)) := by
  refine ⟨get_rate_eq_spec hwf f t, fun he s2 => ?_⟩
  unfold get_rate
  rw [if_pos he]

/-- Witness for C3 at a concrete input: with only the reverse row
`EUR→USD = 2` stored, `get_rate("USD","EUR")` returns the spec-level
cascade's value, the reciprocal `1/2`. -/
theorem getRate_cascade_spec_witness :
    get_rate [⟨"EUR", "USD", 2, true, 0, none⟩] "USD" "EUR" =
      .ok (getRateSpec [⟨"EUR", "USD", 2, true, 0, none⟩] "USD" "EUR") ∧
    getRateSpec [⟨"EUR", "USD", 2, true, 0, none⟩] "USD" "EUR" = some (1 / 2) := by
  refine ⟨(getRate_cascade_spec (by decide) "USD" "EUR").1, ?_⟩
  unfold getRateSpec
  rw [if_neg (by decide)]
  rw [show ([⟨"EUR", "USD", 2, true, 0, none⟩] : RateStore).find?
      (fun r => r.fromCode == pyUpper "USD" && r.toCode == pyUpper "EUR" && r.deletedAt.isNone)
      = none from rfl]
  rw [show ([⟨"EUR", "USD", 2, true, 0, none⟩] : RateStore).find?
      (fun r => r.fromCode == pyUpper "EUR" && r.toCode == pyUpper "USD" && r.deletedAt.isNone)
      = some ⟨"EUR", "USD", 2, true, 0, none⟩ from rfl]
  norm_num

/-- C8: for every integer offset (positive, zero or negative), the month
period starts at the first calendar day, `00:00:00`, of the month
`now.month + offset` — i.e. of the unique month `(Y, M)` with
`1 ≤ M ≤ 12` whose linear index `Y * 12 + (M - 1)` is the index of
`now`'s month shifted by `offset`, so year boundaries roll correctly —
and ends exactly one second before the first day of the following
month. -/
theorem startEndOfMonth_bounds (now : DateTime) (offset : ℤ) :
    ∃ Y M NY NM : ℤ,
      1 ≤ M ∧ M ≤ 12 ∧
      Y * 12 + (M - 1) = now.year * 12 + (now.month - 1) + offset ∧
      1 ≤ NM ∧ NM ≤ 12 ∧
      NY * 12 + (NM - 1) = Y * 12 + (M - 1) + 1 ∧
      (startEndOfMonth now offset).1 = toSec ⟨Y, M, 1, 0, 0, 0⟩ ∧
      (startEndOfMonth now offset).2 = toSec ⟨NY, NM, 1, 0, 0, 0⟩ - 1 := by
  refine ⟨now.year + (now.month + offset - 1) / 12,
    (now.month + offset - 1) % 12 + 1,
    now.year + (now.month + offset - 1) / 12 +
      ((now.month + offset - 1) % 12 + 1 + 1 - 1) / 12,
    ((now.month + offset - 1) % 12 + 1 + 1 - 1) % 12 + 1,
    ?_, ?_, ?_, ?_, ?_, ?_, rfl, rfl⟩
  all_goals omega


/-! ## `get_period_figures` as a signed sum -/

theorem exceptPure_bind {α β : Type} (a : α) (f : α → Except String β) :
    ((pure a : Except String α) >>= f) = f a := rfl

/-- Under the uniqueness constraint, the conversion block resolves to the
spec-level conversion. -/
theorem resolveAmountDefault_eq {cfg : Config} {s : RateStore} (hwf : WFStore s)
    (amount : ℚ) (code : String) :
    resolveAmountDefault cfg s amount code =
      .ok (convertSpec s amount code cfg.default_currency) := by
  unfold resolveAmountDefault
  by_cases hcode : code = cfg.default_currency
  · rw [if_pos hcode, hcode]
    have h1 : convertSpec s amount cfg.default_currency cfg.default_currency =
        some (amount * 1) := by
      unfold convertSpec getRateSpec
      rw [if_pos rfl]
      rfl
    rw [h1, mul_one]
    rfl
  · rw [if_neg hcode]
    exact convert_eq_spec hwf amount code cfg.default_currency

/-- The spec-level income/expense filter of `periodFigure`: when an
income/expense filter is requested, transfers are excluded entirely and
only records of the requested kind remain; with the filter omitted every
record passes. -/
def figFilterSpec (isIncome : Option Bool) (r : Record) : Bool :=
  match isIncome with
  | some b => !r.isTransfer && r.isIncome == b
  | none => true

/-- The spec-level signed contribution of one record (following the
claim's words): the record's self-portion `amount − Σ splits` converted
to the default currency, added for an income record, subtracted for an
expense record; a transfer is neither an income nor an expense record
(spec §3: the flags are mutually exclusive; §4.4: transfers are excluded
from income/expense) and contributes nothing; an unconvertible
contribution is skipped (counts `0`). -/
def signedContribution (cfg : Config) (s : RateStore) (r : Record) : ℚ :=
  if r.isTransfer then 0
  else
    match convertSpec s (r.amount - splitsSum r)
        (resolveCode r.currencyCode cfg.default_currency) cfg.default_currency with
    | none => 0
    | some a => if r.isIncome then a else -a

/-- The spec-level signed net total over a record list. -/
def specSum (cfg : Config) (s : RateStore) (isIncome : Option Bool)
    (l : List Record) : ℚ :=
  ((l.filter (figFilterSpec isIncome)).map (signedContribution cfg s)).sum

theorem specSum_append (cfg : Config) (s : RateStore) (isIncome : Option Bool)
    (xs ys : List Record) :
    specSum cfg s isIncome (xs ++ ys) =
      specSum cfg s isIncome xs + specSum cfg s isIncome ys := by
  unfold specSum
  rw [List.filter_append, List.map_append, List.sum_append]

theorem figStep_ok {cfg : Config} {s : RateStore} (hwf : WFStore s)
    (isIncome : Option Bool) (total : ℚ) (r : Record) :
    figStep cfg s isIncome total r =
      .ok (total + if figFilterSpec isIncome r then signedContribution cfg s r else 0) := by
  have hconv : ∀ t : ℚ, ((do
      let amount_default ← resolveAmountDefault cfg s (r.amount - splitsSum r)
        (resolveCode r.currencyCode cfg.default_currency)
      match amount_default with
      | none => pure t
      | some a =>
          pure (if r.isTransfer then t
            else if r.isIncome then t + a else t - a)) : Except String ℚ)
      = .ok (t + signedContribution cfg s r) := by
    intro t
    rw [resolveAmountDefault_eq hwf, exceptBind_ok]
    unfold signedContribution
    rcases hcv : convertSpec s (r.amount - splitsSum r)
        (resolveCode r.currencyCode cfg.default_currency) cfg.default_currency with _ | a
    · simp only [pure, Except.pure, Except.ok.injEq]
      split_ifs <;> ring
    · simp only [pure, Except.pure, Except.ok.injEq]
      split_ifs <;> ring
  unfold figStep figFilterSpec
  cases isIncome with
  | none =>
    simp only [Option.isSome_none, Bool.false_and, Bool.false_eq_true, if_false, if_pos]
    exact hconv total
  | some b =>
    cases htr : r.isTransfer with
    | true =>
      simp only [Option.isSome_some, Bool.true_and, htr, if_true, Bool.not_true,
        Bool.false_and, Bool.false_eq_true, if_false, add_zero]
      rfl
    | false =>
      simp only [Option.isSome_some, Bool.true_and, htr, Bool.false_eq_true, if_false,
        Bool.not_false, Bool.true_and]
      cases hib : r.isIncome == b with
      | false =>
        have hne : (r.isIncome != b) = true := by
          simp only [bne]; rw [hib]; rfl
        rw [if_pos hne]
        simp only [Bool.false_eq_true, if_false, add_zero]
        rfl
      | true =>
        have heq : (r.isIncome != b) = false := by
          simp only [bne]; rw [hib]; rfl
        rw [if_neg (by rw [heq]; simp)]
        have h2 := hconv total
        simp only [htr, Bool.false_eq_true, if_false] at h2
        exact h2

theorem foldlM_figStep {cfg : Config} {s : RateStore} (hwf : WFStore s)
    (isIncome : Option Bool) (l : List Record) :
    ∀ total : ℚ, l.foldlM (figStep cfg s isIncome) total =
      .ok (total + specSum cfg s isIncome l) := by
  induction l with
  | nil =>
    intro total
    simp [specSum, List.foldlM, pure, Except.pure]
  | cons r rs ih =>
    intro total
    rw [List.foldlM_cons, figStep_ok hwf, exceptBind_ok, ih]
    unfold specSum
    rw [List.filter_cons]
    by_cases hp : figFilterSpec isIncome r = true
    · rw [if_pos hp, if_pos hp, List.map_cons, List.sum_cons]
      congr 1
      ring
    · rw [if_neg hp, if_neg hp]
      congr 1
      ring

/-- Under the store uniqueness constraint, `get_period_figures` equals the
rounded absolute value of the spec-level signed net total of the filtered
records. -/
theorem figures_eq_spec {cfg : Config} {s : RateStore} (hwf : WFStore s)
    (now : DateTime) (records : List Record) (accountId : Option ℤ)
    (offset_type : Option OffsetType) (offset : Option ℤ) (isIncome : Option Bool)
    (nature : Option Nature) :
    get_period_figures cfg s now records accountId offset_type offset isIncome nature =
      .ok (roundq cfg.round_decimals
        |specSum cfg s isIncome
          (filterRecords cfg now records accountId offset_type offset nature)|) := by
  simp only [get_period_figures]
  rw [foldlM_figStep hwf, exceptBind_ok]
  rw [zero_add, ← abs_roundq]
  rfl

theorem filterRecords_append (cfg : Config) (now : DateTime) (xs ys : List Record)
    (accountId : Option ℤ) (offset_type : Option OffsetType) (offset : Option ℤ)
    (nature : Option Nature) :
    filterRecords cfg now (xs ++ ys) accountId offset_type offset nature =
      filterRecords cfg now xs accountId offset_type offset nature ++
      filterRecords cfg now ys accountId offset_type offset nature := by
  unfold filterRecords
  cases accountId <;> cases offset_type <;> cases offset <;> cases nature <;>
    simp [List.filter_append]

theorem filterRecords_sublist (cfg : Config) (now : DateTime) (l : List Record)
    (accountId : Option ℤ) (offset_type : Option OffsetType) (offset : Option ℤ)
    (nature : Option Nature) :
    List.Sublist (filterRecords cfg now l accountId offset_type offset nature) l := by
  unfold filterRecords
  cases accountId <;> cases offset_type <;> cases offset <;> cases nature <;>
    first
      | exact List.Sublist.refl _
      | exact List.filter_sublist _
      | exact (List.filter_sublist _).trans (List.filter_sublist _)
      | exact ((List.filter_sublist _).trans (List.filter_sublist _)).trans
          (List.filter_sublist _)

/-- Removing a record whose spec-level contribution is zero leaves the
period figure unchanged. -/
theorem figures_remove_zero {cfg : Config} {s : RateStore} (hwf : WFStore s)
    {r : Record} (hz : signedContribution cfg s r = 0) (now : DateTime)
    (l1 l2 : List Record) (accountId : Option ℤ) (offset_type : Option OffsetType)
    (offset : Option ℤ) (isIncome : Option Bool) (nature : Option Nature) :
    get_period_figures cfg s now (l1 ++ r :: l2) accountId offset_type offset
        isIncome nature =
      get_period_figures cfg s now (l1 ++ l2) accountId offset_type offset
        isIncome nature := by
  rw [figures_eq_spec hwf, figures_eq_spec hwf]
  have hmid : specSum cfg s isIncome
      (filterRecords cfg now [r] accountId offset_type offset nature) = 0 := by
    have hsub := filterRecords_sublist cfg now [r] accountId offset_type offset nature
    rcases List.sublist_singleton.mp hsub with hcase | hcase
    · rw [hcase]; rfl
    · rw [hcase]
      unfold specSum
      rw [List.filter_singleton]
      cases hp : figFilterSpec isIncome r
      · rw [cond_false]; rfl
      · rw [cond_true, List.map_cons, List.map_nil, List.sum_cons, List.sum_nil,
          hz, add_zero]
  have hsplit : l1 ++ r :: l2 = (l1 ++ [r]) ++ l2 := by simp
  rw [hsplit, filterRecords_append, filterRecords_append, filterRecords_append,
    specSum_append, specSum_append, specSum_append, hmid, add_zero]

/-- C4: `get_period_figures` returns the absolute value, rounded to the
configured decimal count, of the signed sum of converted self-portions
(`record.amount − Σ split.amount`, added for income records, subtracted
for expense records, unconvertible contributions skipped) over the
filtered records; in particular when the `isIncome` filter is omitted
(`isIncome = none`), `figFilterSpec` keeps every record, so income and
expense contributions net against each other inside `specSum` before the
absolute value is taken. -/
theorem periodFigure_abs_rounded_signed_sum {cfg : Config} {s : RateStore}
    (hwf : WFStore s) (now : DateTime) (records : List Record)
    (accountId : Option ℤ) (offset_type : Option OffsetType) (offset : Option ℤ)
    (isIncome : Option Bool) (nature : Option Nature) :
    get_period_figures cfg s now records accountId offset_type offset isIncome nature =
      .ok (roundq cfg.round_decimals
        |specSum cfg s isIncome
          (filterRecords cfg now records accountId offset_type offset nature)|) :=
  figures_eq_spec hwf now records accountId offset_type offset isIncome nature

/-- Witness for C4 at a concrete input: one 100 income record and one 30
expense record in the default currency, no filters — the signed net
`100 − 30` is rounded and returned as `70`. -/
theorem periodFigure_abs_rounded_signed_sum_witness :
    get_period_figures ⟨"USD", 2, 6⟩ [] ⟨2026, 1, 1, 0, 0, 0⟩
      [⟨1, 100, none, 0, 1, none, true, false, none, []⟩,
       ⟨2, 30, none, 0, 1, none, false, false, none, []⟩]
      none none none none none = .ok 70 := by
  rw [periodFigure_abs_rounded_signed_sum (by decide) ⟨2026, 1, 1, 0, 0, 0⟩
    [⟨1, 100, none, 0, 1, none, true, false, none, []⟩,
     ⟨2, 30, none, 0, 1, none, false, false, none, []⟩] none none none none none]
  norm_num [specSum, filterRecords, figFilterSpec, signedContribution, convertSpec,
    getRateSpec, resolveCode, orCode, splitsSum, roundq, rne, Int.fract]

/-- C6: a record whose currency has no resolvable rate to the default
currency contributes nothing: the period figure over a ledger containing
it equals the figure with that record removed, for every choice of
filters. -/
theorem unconvertible_record_excluded {cfg : Config} {s : RateStore}
    (hwf : WFStore s) {r : Record}
    (hnorate : get_rate s (resolveCode r.currencyCode cfg.default_currency)
      cfg.default_currency = .ok none)
    (now : DateTime) (l1 l2 : List Record) (accountId : Option ℤ)
    (offset_type : Option OffsetType) (offset : Option ℤ) (isIncome : Option Bool)
    (nature : Option Nature) :
    get_period_figures cfg s now (l1 ++ r :: l2) accountId offset_type offset
        isIncome nature =
      get_period_figures cfg s now (l1 ++ l2) accountId offset_type offset
        isIncome nature := by
  have hspec : getRateSpec s (resolveCode r.currencyCode cfg.default_currency)
      cfg.default_currency = none := by
    have h := get_rate_eq_spec hwf (resolveCode r.currencyCode cfg.default_currency)
      cfg.default_currency
    rw [hnorate] at h
    exact (Except.ok.inj h).symm
  apply figures_remove_zero hwf
  unfold signedContribution convertSpec
  rw [hspec]
  simp

/-- Witness for C6 at a concrete input: with an empty rate store, a 50 EUR
expense record is excluded and the figure over the two-record ledger
equals the figure over the remaining income record alone. -/
theorem unconvertible_record_excluded_witness :
    get_period_figures ⟨"USD", 2, 6⟩ [] ⟨2026, 1, 1, 0, 0, 0⟩
      ([⟨1, 100, none, 0, 1, none, true, false, none, []⟩] ++
        ⟨2, 50, some "EUR", 0, 1, none, false, false, none, []⟩ :: [])
      none none none none none =
    get_period_figures ⟨"USD", 2, 6⟩ [] ⟨2026, 1, 1, 0, 0, 0⟩
      ([⟨1, 100, none, 0, 1, none, true, false, none, []⟩] ++ [])
      none none none none none :=
  unconvertible_record_excluded (by decide) (by rfl) ⟨2026, 1, 1, 0, 0, 0⟩
    [⟨1, 100, none, 0, 1, none, true, false, none, []⟩] [] none none none none none

/-- C10: a transfer record never contributes to `get_period_figures`:
even with the `isIncome` filter omitted, the final summation skips
transfers, so the figure over a ledger containing a transfer equals the
figure with that transfer removed. -/
theorem transfer_records_never_contribute {cfg : Config} {s : RateStore}
    (hwf : WFStore s) {r : Record} (htr : r.isTransfer = true)
    (now : DateTime) (l1 l2 : List Record) (accountId : Option ℤ)
    (offset_type : Option OffsetType) (offset : Option ℤ) (isIncome : Option Bool)
    (nature : Option Nature) :
    get_period_figures cfg s now (l1 ++ r :: l2) accountId offset_type offset
        isIncome nature =
      get_period_figures cfg s now (l1 ++ l2) accountId offset_type offset
        isIncome nature := by
  apply figures_remove_zero hwf
  unfold signedContribution
  rw [htr]
  simp

/-- Witness for C10 at a concrete input: a 30 transfer record leaves the
figure over an income-only ledger unchanged, with the `isIncome` filter
omitted. -/
theorem transfer_records_never_contribute_witness :
    get_period_figures ⟨"USD", 2, 6⟩ [] ⟨2026, 1, 1, 0, 0, 0⟩
      ([⟨1, 100, none, 0, 1, none, true, false, none, []⟩] ++
        ⟨2, 30, none, 0, 1, none, false, true, some 2, []⟩ :: [])
      none none none none none =
    get_period_figures ⟨"USD", 2, 6⟩ [] ⟨2026, 1, 1, 0, 0, 0⟩
      ([⟨1, 100, none, 0, 1, none, true, false, none, []⟩] ++ [])
      none none none none none :=
  transfer_records_never_contribute (by decide) (by rfl) ⟨2026, 1, 1, 0, 0, 0⟩
    [⟨1, 100, none, 0, 1, none, true, false, none, []⟩] [] none none none none none

/-! ## `get_period_totals_by_currency` characterized per currency -/

/-- Whether a record reaches the bucket for currency `c` in the
accumulation loop: it passes the optional income/expense filter, is not a
transfer, and its own resolved currency is `c`. -/
def currContributes (cfg : Config) (isIncome : Option Bool) (c : String)
    (r : Record) : Bool :=
  (match isIncome with | some b => r.isIncome == b | none => true) && !r.isTransfer &&
    (resolveCode r.currencyCode cfg.default_currency == c)

/-- Raw income bucketed under currency `c`: the sum of self-portions of
contributing income records, in their own currency. -/
def currIncome (cfg : Config) (isIncome : Option Bool) (c : String)
    (l : List Record) : ℚ :=
  ((l.filter (fun r => currContributes cfg isIncome c r && r.isIncome)).map
    (fun r => r.amount - splitsSum r)).sum

/-- Raw expense bucketed under currency `c`. -/
def currExpense (cfg : Config) (isIncome : Option Bool) (c : String)
    (l : List Record) : ℚ :=
  ((l.filter (fun r => currContributes cfg isIncome c r && !r.isIncome)).map
    (fun r => r.amount - splitsSum r)).sum

/-- Whether any record reaches the bucket for currency `c` (the bucket
exists in the `defaultdict`). -/
def currTouched (cfg : Config) (isIncome : Option Bool) (c : String)
    (l : List Record) : Bool :=
  l.any (currContributes cfg isIncome c)

theorem currIncome_cons_of_not {cfg : Config} {inc : Option Bool} {c : String}
    {r : Record} (h : currContributes cfg inc c r = false) (rs : List Record) :
    currIncome cfg inc c (r :: rs) = currIncome cfg inc c rs := by
  unfold currIncome
  rw [List.filter_cons]
  simp [h]

theorem currExpense_cons_of_not {cfg : Config} {inc : Option Bool} {c : String}
    {r : Record} (h : currContributes cfg inc c r = false) (rs : List Record) :
    currExpense cfg inc c (r :: rs) = currExpense cfg inc c rs := by
  unfold currExpense
  rw [List.filter_cons]
  simp [h]

theorem currTouched_cons {cfg : Config} {inc : Option Bool} {c : String}
    (r : Record) (rs : List Record) :
    currTouched cfg inc c (r :: rs) =
      (currContributes cfg inc c r || currTouched cfg inc c rs) := by
  unfold currTouched
  rw [List.any_cons]

theorem currIncome_cons_of_income {cfg : Config} {inc : Option Bool} {c : String}
    {r : Record} (h : currContributes cfg inc c r = true) (hi : r.isIncome = true)
    (rs : List Record) :
    currIncome cfg inc c (r :: rs) = (r.amount - splitsSum r) + currIncome cfg inc c rs := by
  unfold currIncome
  rw [List.filter_cons]
  simp [h, hi]

theorem currIncome_cons_of_expense {cfg : Config} {inc : Option Bool} {c : String}
    {r : Record} (h : currContributes cfg inc c r = true) (hi : r.isIncome = false)
    (rs : List Record) :
    currIncome cfg inc c (r :: rs) = currIncome cfg inc c rs := by
  unfold currIncome
  rw [List.filter_cons]
  simp [h, hi]

theorem currExpense_cons_of_income {cfg : Config} {inc : Option Bool} {c : String}
    {r : Record} (h : currContributes cfg inc c r = true) (hi : r.isIncome = true)
    (rs : List Record) :
    currExpense cfg inc c (r :: rs) = currExpense cfg inc c rs := by
  unfold currExpense
  rw [List.filter_cons]
  simp [h, hi]

theorem currExpense_cons_of_expense {cfg : Config} {inc : Option Bool} {c : String}
    {r : Record} (h : currContributes cfg inc c r = true) (hi : r.isIncome = false)
    (rs : List Record) :
    currExpense cfg inc c (r :: rs) = (r.amount - splitsSum r) + currExpense cfg inc c rs := by
  unfold currExpense
  rw [List.filter_cons]
  simp [h, hi]

theorem lookup_bumpTotals_self (m : List (String × ℚ × ℚ)) (c : String)
    (inc : Bool) (amt : ℚ) :
    List.lookup c (bumpTotals m c inc amt) = some
      (match List.lookup c m with
       | none => if inc then (amt, 0) else (0, amt)
       | some ie => if inc then (ie.1 + amt, ie.2) else (ie.1, ie.2 + amt)) := by
  induction m with
  | nil =>
    simp [bumpTotals, List.lookup]
  | cons p rest ih =>
    obtain ⟨c1, i, e⟩ := p
    unfold bumpTotals
    by_cases hc : c1 = c
    · subst hc
      rw [if_pos rfl]
      simp [List.lookup]
    · rw [if_neg hc]
      have hbeq : (c == c1) = false := by
        simp only [beq_eq_false_iff_ne]
        exact fun hcc => hc hcc.symm
      simp only [List.lookup, hbeq, ih]

theorem lookup_bumpTotals_other (m : List (String × ℚ × ℚ)) {c c2 : String}
    (hne : c2 ≠ c) (inc : Bool) (amt : ℚ) :
    List.lookup c2 (bumpTotals m c inc amt) = List.lookup c2 m := by
  induction m with
  | nil =>
    have hbeq : (c2 == c) = false := by simpa using hne
    simp [bumpTotals, List.lookup, hbeq]
  | cons p rest ih =>
    obtain ⟨c1, i, e⟩ := p
    unfold bumpTotals
    by_cases hc : c1 = c
    · subst hc
      have hbeq : (c2 == c1) = false := by simpa using hne
      simp [List.lookup, hbeq]
    · rw [if_neg hc]
      simp only [List.lookup, ih]

theorem totalsStep_skip1 {cfg : Config} {inc : Option Bool} {r : Record}
    (h : (match inc with | some b => r.isIncome != b | none => false) = true)
    (m : List (String × ℚ × ℚ)) : totalsStep cfg inc m r = m := by
  unfold totalsStep
  rw [if_pos h]

theorem totalsStep_skip2 {cfg : Config} {inc : Option Bool} {r : Record}
    (h1 : (match inc with | some b => r.isIncome != b | none => false) = false)
    (h2 : r.isTransfer = true) (m : List (String × ℚ × ℚ)) :
    totalsStep cfg inc m r = m := by
  unfold totalsStep
  rw [if_neg (by rw [h1]; simp), if_pos h2]

theorem totalsStep_bump {cfg : Config} {inc : Option Bool} {r : Record}
    (h1 : (match inc with | some b => r.isIncome != b | none => false) = false)
    (h2 : r.isTransfer = false) (m : List (String × ℚ × ℚ)) :
    totalsStep cfg inc m r =
      bumpTotals m (resolveCode r.currencyCode cfg.default_currency) r.isIncome
        (r.amount - splitsSum r) := by
  unfold totalsStep
  rw [if_neg (by rw [h1]; simp), if_neg (by rw [h2]; simp)]

theorem currContributes_of_skip1 {cfg : Config} {inc : Option Bool} {r : Record}
    (h : (match inc with | some b => r.isIncome != b | none => false) = true)
    (c : String) : currContributes cfg inc c r = false := by
  unfold currContributes
  cases inc with
  | none => simp at h
  | some b =>
    simp only [bne] at h
    simp only [Bool.and_eq_false_iff]
    left; left
    simpa using h

theorem currContributes_of_transfer {cfg : Config} {inc : Option Bool} {r : Record}
    (h : r.isTransfer = true) (c : String) : currContributes cfg inc c r = false := by
  unfold currContributes
  simp [h]

theorem lookup_foldl_totalsStep (cfg : Config) (inc : Option Bool) (c : String)
    (l : List Record) :
    ∀ m : List (String × ℚ × ℚ),
      List.lookup c (l.foldl (totalsStep cfg inc) m) =
        match List.lookup c m with
        | some ie => some (ie.1 + currIncome cfg inc c l, ie.2 + currExpense cfg inc c l)
        | none =>
            if currTouched cfg inc c l
            then some (currIncome cfg inc c l, currExpense cfg inc c l) else none := by
  induction l with
  | nil =>
    intro m
    rw [List.foldl_nil]
    cases hm : List.lookup c m with
    | none => simp [currTouched]
    | some ie => simp [currIncome, currExpense]
  | cons r rs ih =>
    intro m
    rw [List.foldl_cons]
    cases h1 : (match inc with | some b => r.isIncome != b | none => false) with
    | true =>
      have hnc := @currContributes_of_skip1 cfg inc r h1 c
      rw [totalsStep_skip1 h1, ih, currIncome_cons_of_not hnc,
        currExpense_cons_of_not hnc, currTouched_cons, hnc, Bool.false_or]
    | false =>
      cases h2 : r.isTransfer with
      | true =>
        have hnc := @currContributes_of_transfer cfg inc r h2 c
        rw [totalsStep_skip2 h1 h2, ih, currIncome_cons_of_not hnc,
          currExpense_cons_of_not hnc, currTouched_cons, hnc, Bool.false_or]
      | false =>
        rw [totalsStep_bump h1 h2, ih]
        by_cases hc : resolveCode r.currencyCode cfg.default_currency = c
        · have hcon : currContributes cfg inc c r = true := by
            unfold currContributes
            cases inc with
            | none => simp [h2, hc]
            | some b =>
              have hxb : (r.isIncome == b) = true := by
                cases hxb2 : (r.isIncome == b)
                · simp only [bne, hxb2] at h1
                  exact absurd h1 (by simp)
                · rfl
              simp [hxb, h2, hc]
          rw [hc, lookup_bumpTotals_self, currTouched_cons, hcon, Bool.true_or]
          cases hm : List.lookup c m with
          | none =>
            cases hi : r.isIncome with
            | true =>
              rw [currIncome_cons_of_income hcon hi, currExpense_cons_of_income hcon hi]
              simp [hi]
              all_goals first | ring | (constructor <;> ring)
            | false =>
              rw [currIncome_cons_of_expense hcon hi, currExpense_cons_of_expense hcon hi]
              simp [hi]
              all_goals first | ring | (constructor <;> ring)
          | some ie =>
            cases hi : r.isIncome with
            | true =>
              rw [currIncome_cons_of_income hcon hi, currExpense_cons_of_income hcon hi]
              simp [hi]
              all_goals first | ring | (constructor <;> ring)
            | false =>
              rw [currIncome_cons_of_expense hcon hi, currExpense_cons_of_expense hcon hi]
              simp [hi]
              all_goals first | ring | (constructor <;> ring)
        · have hnc : currContributes cfg inc c r = false := by
            unfold currContributes
            simp only [Bool.and_eq_false_iff, beq_eq_false_iff_ne]
            right
            exact hc
          rw [lookup_bumpTotals_other m (fun h => hc h.symm), currIncome_cons_of_not hnc,
            currExpense_cons_of_not hnc, currTouched_cons, hnc, Bool.false_or]

theorem mem_keys_bumpTotals {m : List (String × ℚ × ℚ)} {c x : String}
    {inc : Bool} {amt : ℚ}
    (h : x ∈ (bumpTotals m c inc amt).map Prod.fst) :
    x ∈ m.map Prod.fst ∨ x = c := by
  induction m with
  | nil =>
    simp [bumpTotals] at h
    exact Or.inr h
  | cons p rest ih =>
    obtain ⟨c1, i, e⟩ := p
    unfold bumpTotals at h
    by_cases hc : c1 = c
    · rw [if_pos hc, List.map_cons] at h
      rcases List.mem_cons.mp h with h | h
      · exact Or.inl (by rw [List.map_cons]; exact List.mem_cons.mpr (Or.inl h))
      · exact Or.inl (by rw [List.map_cons]; exact List.mem_cons.mpr (Or.inr h))
    · rw [if_neg hc, List.map_cons] at h
      rcases List.mem_cons.mp h with h | h
      · exact Or.inl (by rw [List.map_cons]; exact List.mem_cons.mpr (Or.inl h))
      · rcases ih h with h2 | h2
        · exact Or.inl (by rw [List.map_cons]; exact List.mem_cons.mpr (Or.inr h2))
        · exact Or.inr h2

theorem nodupKeys_bumpTotals {m : List (String × ℚ × ℚ)} {c : String}
    {inc : Bool} {amt : ℚ} (h : (m.map Prod.fst).Nodup) :
    ((bumpTotals m c inc amt).map Prod.fst).Nodup := by
  induction m with
  | nil => simp [bumpTotals]
  | cons p rest ih =>
    obtain ⟨c1, i, e⟩ := p
    rw [List.map_cons, List.nodup_cons] at h
    unfold bumpTotals
    by_cases hc : c1 = c
    · rw [if_pos hc, List.map_cons, List.nodup_cons]
      exact ⟨h.1, h.2⟩
    · rw [if_neg hc, List.map_cons, List.nodup_cons]
      refine ⟨fun hmem => ?_, ih h.2⟩
      rcases mem_keys_bumpTotals hmem with h2 | h2
      · exact h.1 h2
      · exact hc h2

theorem nodupKeys_foldl_totalsStep (cfg : Config) (inc : Option Bool)
    (l : List Record) :
    ∀ m : List (String × ℚ × ℚ), (m.map Prod.fst).Nodup →
      ((l.foldl (totalsStep cfg inc) m).map Prod.fst).Nodup := by
  induction l with
  | nil => intro m hm; simpa using hm
  | cons r rs ih =>
    intro m hm
    rw [List.foldl_cons]
    refine ih _ ?_
    unfold totalsStep
    split_ifs
    · exact hm
    · exact hm
    · exact nodupKeys_bumpTotals hm

theorem lookup_eq_none_of_not_mem_keys {β : Type} {m : List (String × β)} {c : String}
    (h : c ∉ m.map Prod.fst) : List.lookup c m = none := by
  induction m with
  | nil => rfl
  | cons p rest ih =>
    rw [List.map_cons, List.mem_cons] at h
    push_neg at h
    have hbeq : (c == p.1) = false := by simpa using h.1
    obtain ⟨k, v⟩ := p
    simp only [List.lookup, hbeq]
    exact ih h.2

theorem finalizeBucket_key {d : ℕ} {b : String × ℚ × ℚ} {q : String × ℚ × ℚ × ℚ}
    (h : finalizeBucket d b = some q) : q.1 = b.1 := by
  simp only [finalizeBucket] at h
  by_cases hcond : roundq d b.2.1 = 0 ∧ roundq d b.2.2 = 0
  · rw [if_pos hcond] at h
    exact absurd h (by simp)
  · rw [if_neg hcond, Option.some.injEq] at h
    rw [← h]

theorem mem_keys_filterMap_finalize {d : ℕ} {m : List (String × ℚ × ℚ)} {x : String}
    (h : x ∈ (m.filterMap (finalizeBucket d)).map Prod.fst) :
    x ∈ m.map Prod.fst := by
  rw [List.mem_map] at h
  obtain ⟨q, hq, hx⟩ := h
  rw [List.mem_filterMap] at hq
  obtain ⟨b, hb, hfin⟩ := hq
  rw [List.mem_map]
  exact ⟨b, hb, by rw [← hx, finalizeBucket_key hfin]⟩

theorem lookup_filterMap_finalize (d : ℕ) (m : List (String × ℚ × ℚ))
    (hnd : (m.map Prod.fst).Nodup) (c : String) :
    List.lookup c (m.filterMap (finalizeBucket d)) =
      (List.lookup c m).bind (fun ie => (finalizeBucket d (c, ie)).map (fun q => q.2)) := by
  induction m with
  | nil => rfl
  | cons p rest ih =>
    obtain ⟨k, v⟩ := p
    rw [List.map_cons, List.nodup_cons] at hnd
    rw [List.filterMap_cons]
    by_cases hck : c = k
    · subst hck
      have hlc : List.lookup c ((c, v) :: rest) = some v := by
        simp [List.lookup]
      rw [hlc]
      cases hf : finalizeBucket d (c, v) with
      | none =>
        have hnone : List.lookup c (rest.filterMap (finalizeBucket d)) = none :=
          lookup_eq_none_of_not_mem_keys
            (fun hmem => hnd.1 (mem_keys_filterMap_finalize hmem))
        simp [hf, hnone]
      | some q =>
        obtain ⟨q1, q2⟩ := q
        have hq1 : q1 = c := by simpa using finalizeBucket_key hf
        subst hq1
        simp [hf, List.lookup]
    · have hbeq : (c == k) = false := by simpa using hck
      have hlc : List.lookup c ((k, v) :: rest) = List.lookup c rest := by
        simp only [List.lookup, hbeq]
      rw [hlc]
      cases hf : finalizeBucket d (k, v) with
      | none => exact ih hnd.2
      | some q =>
        obtain ⟨q1, q2⟩ := q
        have hq1 : q1 = k := by simpa using finalizeBucket_key hf
        have hbq : (c == q1) = false := by rw [hq1]; exact hbeq
        show List.lookup c ((q1, q2) :: rest.filterMap (finalizeBucket d)) = _
        simp only [List.lookup, hbq]
        exact ih hnd.2

theorem roundq_zero (d : ℕ) : roundq d 0 = 0 := by
  have h := roundq_intMul d 0
  simpa using h

theorem currSums_of_untouched {cfg : Config} {inc : Option Bool} {c : String}
    {l : List Record} (h : currTouched cfg inc c l = false) :
    currIncome cfg inc c l = 0 ∧ currExpense cfg inc c l = 0 := by
  unfold currTouched at h
  rw [List.any_eq_false] at h
  constructor
  · unfold currIncome
    rw [List.filter_eq_nil_iff.mpr (fun r hr => by
      simp only [Bool.and_eq_true, not_and]
      intro hc
      exact absurd hc (h r hr))]
    rfl
  · unfold currExpense
    rw [List.filter_eq_nil_iff.mpr (fun r hr => by
      simp only [Bool.and_eq_true, not_and]
      intro hc
      exact absurd hc (h r hr))]
    rfl

/-- C7: `get_period_totals_by_currency` groups the self-portions of
non-transfer records (passing the optional income/expense filter) by each
record's own resolved currency with no conversion applied; for every
currency `c` the returned mapping contains an entry exactly when the
rounded income or the rounded expense is nonzero, and that entry is
`(income, expense, net)` with `income` and `expense` each rounded
independently to the configured decimal count and
`net = income − expense`. -/
theorem perCurrencyTotals_lookup (cfg : Config) (now : DateTime)
    (records : List Record) (accountId : Option ℤ) (offset_type : Option OffsetType)
    (offset : Option ℤ) (isIncome : Option Bool) (nature : Option Nature)
    (c : String) :
    List.lookup c
        (get_period_totals_by_currency cfg now records accountId offset_type offset
          isIncome nature) =
      (if roundq cfg.round_decimals (currIncome cfg isIncome c
            (filterRecords cfg now records accountId offset_type offset nature)) = 0 ∧
          roundq cfg.round_decimals (currExpense cfg isIncome c
            (filterRecords cfg now records accountId offset_type offset nature)) = 0
       then none
       else some
        (roundq cfg.round_decimals (currIncome cfg isIncome c
            (filterRecords cfg now records accountId offset_type offset nature)),
         roundq cfg.round_decimals (currExpense cfg isIncome c
            (filterRecords cfg now records accountId offset_type offset nature)),
         roundq cfg.round_decimals (currIncome cfg isIncome c
            (filterRecords cfg now records accountId offset_type offset nature)) -
           roundq cfg.round_decimals (currExpense cfg isIncome c
            (filterRecords cfg now records accountId offset_type offset nature)))) := by
  simp only [get_period_totals_by_currency]
  rw [lookup_filterMap_finalize _ _
    (nodupKeys_foldl_totalsStep cfg isIncome _ [] (by simp)) c]
  rw [lookup_foldl_totalsStep]
  have h0 : List.lookup c ([] : List (String × ℚ × ℚ)) = none := rfl
  rw [h0]
  cases ht : currTouched cfg isIncome c
      (filterRecords cfg now records accountId offset_type offset nature) with
  | false =>
    obtain ⟨hI, hE⟩ := currSums_of_untouched ht
    simp [hI, hE, roundq_zero]
  | true =>
    simp only [if_true, Option.some_bind, finalizeBucket]
    by_cases hz : roundq cfg.round_decimals (currIncome cfg isIncome c
          (filterRecords cfg now records accountId offset_type offset nature)) = 0 ∧
        roundq cfg.round_decimals (currExpense cfg isIncome c
          (filterRecords cfg now records accountId offset_type offset nature)) = 0
    · rw [if_pos hz, if_pos hz]
      rfl
    · rw [if_neg hz, if_neg hz, roundq_roundq_sub]
      rfl

/-! ## `get_account_balance` as a sum of signed converted contributions -/

theorem foldlM_add_contrib {α : Type} (step : ℚ → α → Except String ℚ) (g : α → ℚ)
    (hstep : ∀ b x, step b x = .ok (b + g x)) (l : List α) :
    ∀ b, l.foldlM step b = .ok (b + (l.map g).sum) := by
  induction l with
  | nil => intro b; simp [List.foldlM, pure, Except.pure]
  | cons x xs ih =>
    intro b
    rw [List.foldlM_cons, hstep, exceptBind_ok, ih, List.map_cons, List.sum_cons]
    rw [add_assoc]

/-- The claim's reading of one owned record's effect on the balance:
converted to the default currency (skipped when unconvertible), a
transfer out subtracts regardless of the income flag, income adds,
expense subtracts. -/
def ownedContribution (cfg : Config) (s : RateStore) (r : Record) : ℚ :=
  match convertSpec s r.amount (resolveCode r.currencyCode cfg.default_currency)
      cfg.default_currency with
  | none => 0
  | some a => if r.isTransfer then -a else if r.isIncome then a else -a

/-- The claim's reading of a transfer into this account: its converted
amount is added (skipped when unconvertible). -/
def transferInContribution (cfg : Config) (s : RateStore) (r : Record) : ℚ :=
  match convertSpec s r.amount (resolveCode r.currencyCode cfg.default_currency)
      cfg.default_currency with
  | none => 0
  | some a => a

/-- The claim's reading of a split settled to this account: only paid
splits count; the currency falls back from the split to its parent record
to the default; a paid split against an income record subtracts, against
an expense record adds (skipped when unconvertible). -/
def splitContribution (cfg : Config) (s : RateStore) (sp : Split × Record) : ℚ :=
  if sp.1.isPaid then
    match convertSpec s sp.1.amount
        (resolveCode sp.1.currencyCode (resolveCode sp.2.currencyCode cfg.default_currency))
        cfg.default_currency with
    | none => 0
    | some a => if sp.2.isIncome then -a else a
  else 0

theorem ownRecordStep_ok {cfg : Config} {s : RateStore} (hwf : WFStore s)
    (b : ℚ) (r : Record) :
    ownRecordStep cfg s b r = .ok (b + ownedContribution cfg s r) := by
  unfold ownRecordStep ownedContribution
  rw [resolveAmountDefault_eq hwf, exceptBind_ok]
  rcases hcv : convertSpec s r.amount (resolveCode r.currencyCode cfg.default_currency)
      cfg.default_currency with _ | a
  · simp only [pure, Except.pure, Except.ok.injEq]
    ring
  · simp only [pure, Except.pure, Except.ok.injEq]
    split_ifs <;> ring

theorem transferInStep_ok {cfg : Config} {s : RateStore} (hwf : WFStore s)
    (b : ℚ) (r : Record) :
    transferInStep cfg s b r = .ok (b + transferInContribution cfg s r) := by
  unfold transferInStep transferInContribution
  rw [resolveAmountDefault_eq hwf, exceptBind_ok]
  rcases hcv : convertSpec s r.amount (resolveCode r.currencyCode cfg.default_currency)
      cfg.default_currency with _ | a
  · simp only [pure, Except.pure, Except.ok.injEq]
    ring
  · simp only [pure, Except.pure, Except.ok.injEq]

theorem splitStep_ok {cfg : Config} {s : RateStore} (hwf : WFStore s)
    (b : ℚ) (sp : Split × Record) :
    splitStep cfg s b sp = .ok (b + splitContribution cfg s sp) := by
  unfold splitStep splitContribution
  cases hp : sp.1.isPaid with
  | false =>
    simp [pure, Except.pure]
  | true =>
    simp only [Bool.not_true, Bool.false_eq_true, if_false, eq_self_iff_true, if_true]
    rw [resolveAmountDefault_eq hwf, exceptBind_ok]
    rcases hcv : convertSpec s sp.1.amount
        (resolveCode sp.1.currencyCode (resolveCode sp.2.currencyCode cfg.default_currency))
        cfg.default_currency with _ | a
    · simp only [pure, Except.pure, Except.ok.injEq]
      ring
    · simp only [pure, Except.pure, Except.ok.injEq]
      split_ifs <;> ring

/-- C5: `get_account_balance(accountId)` starts from the account's
`beginningBalance` and, converting every contribution to the default
currency and skipping unconvertible ones, subtracts owned transfers
(regardless of the income flag), adds owned income, subtracts owned
expenses, adds every transfer into the account, adds paid splits settled
to this account against expense records and subtracts them against income
records, rounding the result to the configured precision. -/
theorem accountBalance_signed_sums {cfg : Config} {s : RateStore}
    (hwf : WFStore s) {accounts : List Account} {records : List Record}
    {accountId : ℤ} {acct : Account}
    (hfind : accounts.find? (fun a => a.id == accountId) = some acct) :
    get_account_balance cfg s accounts records accountId =
      .ok (roundq cfg.round_decimals
        (acct.beginningBalance
          + ((records.filter (fun r => r.accountId == accountId)).map
              (ownedContribution cfg s)).sum
          + ((records.filter (fun r => r.transferToAccountId == some accountId
              && r.isTransfer)).map (transferInContribution cfg s)).sum
          + (((splitRows records).filter (fun sp => sp.1.accountId == some accountId)).map
              (splitContribution cfg s)).sum)) := by
  unfold get_account_balance
  rw [hfind]
  simp only []
  rw [exceptPure_bind]
  rw [foldlM_add_contrib _ _ (ownRecordStep_ok hwf), exceptBind_ok]
  rw [foldlM_add_contrib _ _ (transferInStep_ok hwf), exceptBind_ok]
  rw [foldlM_add_contrib _ _ (splitStep_ok hwf), exceptBind_ok]
  rfl

/-- Witness for C5, the spec's Scenario D: beginning balance `0`, one
income record of `100` into the account, one transfer of `30` out of it
to the "Outside source" account — the balance is `70`. -/
theorem accountBalance_signed_sums_witness :
    get_account_balance ⟨"USD", 2, 6⟩ []
      [⟨1, "Checking", 0, false, none⟩, ⟨2, "Outside source", 0, false, none⟩]
      [⟨1, 100, none, 0, 1, none, true, false, none, []⟩,
       ⟨2, 30, none, 0, 1, none, false, true, some 2, []⟩]
      1 = .ok 70 := by
  rw [accountBalance_signed_sums (by decide) (by rfl)]
  norm_num [ownedContribution, transferInContribution, splitContribution, splitRows,
    convertSpec, getRateSpec, resolveCode, orCode, roundq, rne, Int.fract]

/-! ## Daily series never extend beyond today -/

theorem except_bind_eq_ok {α β : Type} {e : Except String α} {f : α → Except String β}
    {b : β} (h : (e >>= f) = .ok b) : ∃ a, e = .ok a ∧ f a = .ok b := by
  cases e with
  | error msg => exact absurd h (by simp [exceptBind_err])
  | ok a => exact ⟨a, rfl, by rw [exceptBind_ok] at h; exact h⟩

theorem spendingLoop_length (m : ℤ → ℚ) (today : ℤ) (cumulative : Bool) :
    ∀ (n : ℕ) (running : ℚ) (current end_day : ℤ), n = (end_day + 1 - current).toNat →
      (spendingLoop m today cumulative running current end_day).length =
        (min end_day today + 1 - current).toNat := by
  intro n
  induction n using Nat.strong_induction_on with
  | _ n ih =>
    intro running current end_day hn
    rw [spendingLoop]
    by_cases h1 : current ≤ end_day
    · rw [if_pos h1]
      by_cases h2 : current ≤ today
      · rw [if_pos h2]
        cases cumulative with
        | false =>
          rw [if_neg (by simp)]
          rw [List.length_cons,
            ih ((end_day + 1 - (current + 1)).toNat) (by omega) running (current + 1)
              end_day rfl]
          omega
        | true =>
          rw [if_pos rfl]
          rw [List.length_cons,
            ih ((end_day + 1 - (current + 1)).toNat) (by omega) (running + m current)
              (current + 1) end_day rfl]
          omega
      · rw [if_neg h2]
        rw [ih ((end_day + 1 - (current + 1)).toNat) (by omega) running (current + 1)
          end_day rfl]
        omega
    · rw [if_neg h1]
      simp only [List.length_nil]
      omega

theorem calculate_daily_spending_length {cfg : Config} {s : RateStore}
    {records : List Record} {start_date end_date today : ℤ} {cumulative : Bool}
    {l : List ℚ}
    (h : calculate_daily_spending cfg s records start_date end_date today cumulative = .ok l) :
    l.length = (min (end_date / 86400) (today / 86400) + 1 - start_date / 86400).toNat := by
  unfold calculate_daily_spending at h
  obtain ⟨m, hm, h⟩ := except_bind_eq_ok h
  have hl : l = spendingLoop m (today / 86400) cumulative 0 (start_date / 86400)
      (end_date / 86400) := by
    simpa [pure, Except.pure] using h.symm
  rw [hl, spendingLoop_length m (today / 86400) cumulative
    ((end_date / 86400 + 1 - start_date / 86400).toNat) 0 (start_date / 86400)
    (end_date / 86400) rfl]

theorem balanceLoop_length (cfg : Config) (s : RateStore) (accounts : List Account)
    (records : List Record) (liveIds : List ℤ) (today end_date : ℤ) :
    ∀ (n : ℕ) (total : ℚ) (current : ℤ) (l : List ℚ),
      n = (end_date + 1 - current).toNat →
      balanceLoop cfg s accounts records liveIds today end_date total current = .ok l →
      l.length = ((min end_date today - current) / 86400 + 1).toNat := by
  intro n
  induction n using Nat.strong_induction_on with
  | _ n ih =>
    intro total current l hn h
    rw [balanceLoop] at h
    by_cases h1 : current ≤ end_date
    · rw [if_pos h1] at h
      by_cases h2 : current > today
      · rw [if_pos h2] at h
        have hl : l = [] := by simpa [pure, Except.pure] using h.symm
        rw [hl]
        simp only [List.length_nil]
        omega
      · rw [if_neg h2] at h
        obtain ⟨de, hde, h⟩ := except_bind_eq_ok h
        obtain ⟨rest, hrest, h⟩ := except_bind_eq_ok h
        have hl : l = (total + de) :: rest := by
          simpa [pure, Except.pure] using h.symm
        rw [hl, List.length_cons,
          ih ((end_date + 1 - (current + 86400)).toNat) (by omega) (total + de)
            (current + 86400) rest rfl hrest]
        omega
    · rw [if_neg h1] at h
      have hl : l = [] := by simpa [pure, Except.pure] using h.symm
      rw [hl]
      simp only [List.length_nil]
      omega

theorem get_daily_balance_length {cfg : Config} {s : RateStore}
    {accounts : List Account} {records : List Record} {start_date end_date today : ℤ}
    {l : List ℚ}
    (h : get_daily_balance cfg s accounts records start_date end_date today = .ok l) :
    l.length = ((min end_date today - start_date) / 86400 + 1).toNat := by
  unfold get_daily_balance at h
  obtain ⟨t1, ht1, h⟩ := except_bind_eq_ok h
  exact balanceLoop_length cfg s accounts records
    ((accounts.filter (fun a => a.deletedAt.isNone)).map Account.id) today end_date
    ((end_date + 1 - start_date).toNat) t1 start_date l rfl h

/-- C9: the daily series operations never emit an entry for a day after
today.  Each of `get_spending`, `get_spending_trend` and
`get_daily_balance` walks the days of `[startDate, endDate]` in order,
emitting one entry per day and stopping at today: the returned sequence
has exactly one entry per calendar day of `[startDate, min(endDate,
today)]` (its length is that day count, and zero once `startDate` lies
beyond `min(endDate, today)`), so days beyond today are never included. -/
theorem daily_series_stop_at_today (cfg : Config) (s : RateStore)
    (records : List Record) (accounts : List Account)
    (start_date end_date today : ℤ) :
    (∀ l, get_spending cfg s records start_date end_date today = .ok l →
      l.length = (min (end_date / 86400) (today / 86400) + 1 - start_date / 86400).toNat) ∧
    (∀ l, get_spending_trend cfg s records start_date end_date today = .ok l →
      l.length = (min (end_date / 86400) (today / 86400) + 1 - start_date / 86400).toNat) ∧
    (∀ l, get_daily_balance cfg s accounts records start_date end_date today = .ok l →
      l.length = ((min end_date today - start_date) / 86400 + 1).toNat) := by
  refine ⟨fun l h => ?_, fun l h => ?_, fun l h => get_daily_balance_length h⟩
  · exact calculate_daily_spending_length h
  · exact calculate_daily_spending_length h

/-- Witness for C9 at a concrete input: a one-day window with "today" on
that same day yields exactly one spending entry, and a window lying
entirely after "today" yields no balance entries at all. -/
theorem daily_series_stop_at_today_witness :
    ([0] : List ℚ).length =
      (min ((0 : ℤ) / 86400) ((0 : ℤ) / 86400) + 1 - (0 : ℤ) / 86400).toNat ∧
    ([] : List ℚ).length = ((min (172800 : ℤ) (-1) - 0) / 86400 + 1).toNat := by
  have h1 := daily_series_stop_at_today ⟨"USD", 2, 6⟩ [] [] [] 0 0 0
  have h2 := daily_series_stop_at_today ⟨"USD", 2, 6⟩ [] [] [] 0 172800 (-1)
  have hs : get_spending ⟨"USD", 2, 6⟩ [] [] 0 0 0 = .ok [0] := by
    unfold get_spending calculate_daily_spending
    rw [show buildDailySpending ⟨"USD", 2, 6⟩ [] (spendingRecords [] 0 0) =
      .ok (fun _ => 0) from rfl, exceptBind_ok]
    rw [spendingLoop]
    norm_num
    rw [spendingLoop]
    norm_num [pure, Except.pure]
  have hb : get_daily_balance ⟨"USD", 2, 6⟩ [] [] [] 0 172800 (-1) = .ok [] := by
    show balanceLoop ⟨"USD", 2, 6⟩ [] [] [] [] (-1) 172800 0 0 = .ok []
    rw [balanceLoop]
    norm_num [pure, Except.pure]
  exact ⟨h1.1 [0] hs, h2.2.2 [] hb⟩
